import Mathlib

/-!
# tsp_kernel_bench: a verification development

A shallow embedding of `src/tsp_kernel_bench.c`, a Linux kernel module that
benchmarks one global spinlock with `threads` kernel threads.

* u64 fields are natural numbers kept below `2 ^ 64`; every u64 addition and
  subtraction of the source is written with an explicit `% U64_MOD`.
* The module's globals (`wstats`, `shared_counters`, `dbg_dir`,
  `dbg_stats_file`, `created_threads`, `global_lock`) are the fields of `KState`.
* Pointers to heap arrays are `Ptr`: NULL, a live array, or a dangling pointer
  to memory already given to `kfree`.  What the module holds from the kernel
  (the two `kcalloc` blocks, the two debugfs entries) is listed in the field
  `held`: an allocation adds to it, and only `kfree` and
  `debugfs_remove_recursive` take from it.
* The kernel threads running `worker_fn` are a step machine: every thread has a
  program counter `PC`, and an `Event` lets one thread execute its next
  statement.  The kernel spinlock is taken as a lock with a single holder: a
  thread at `spin_lock` advances only while nobody holds the lock.
* The body guarded by `st->stats_lock` is one atomic step; so is the snapshot
  the reporter takes of one record.
* `tsp_kbench_init` is one action: the threads take their first step after it
  has returned.  The creation loop writes record `i` before it creates thread
  `i`, and a thread writes its own record and the counters only.
* The value `now_ns()` returns is carried by the event that takes the step;
  `clock_ok` is the contract of the monotonic clock behind it (the readings
  never decrease and fit in a u64), assumed where a theorem names it.
* `kthread_stop` returns once its thread has exited; what the threads do while
  it waits is a schedule handed to `cleanup_all`, and a schedule under which
  the thread has not exited is reported as `Fault.blocked`.
-/

namespace TspKbench

/-! ## Machine integers and error codes -/

/-- The modulus of u64 arithmetic. -/
def U64_MOD : Nat := 2 ^ 64

/-- The u64 subtraction `a - b` of two u64 values. -/
def sub64 (a b : Nat) : Nat := (a + U64_MOD - b) % U64_MOD

/-- The errno value `EINVAL` of the kernel headers (asm-generic/errno-base.h). -/
def EINVAL : Int := 22

/-- The errno value `ENOMEM` of the kernel headers (asm-generic/errno-base.h). -/
def ENOMEM : Int := 12

/-! ## Faults and outcomes -/

/-- The ways in which the C code can fault. -/
inductive Fault where
  | null_deref
  | use_after_free
  | out_of_bounds
  | double_free
  | div_by_zero
  | blocked
deriving DecidableEq, Repr

/-- The result of running a piece of the module: a value, or a fault. -/
inductive Outcome (α : Type) where
  | ok (a : α)
  | fault (f : Fault)
deriving DecidableEq, Repr

/-- Sequencing of two fallible computations. -/
def Outcome.bind {α β : Type} (x : Outcome α) (f : α → Outcome β) : Outcome β :=
  match x with
  | .ok a => f a
  | .fault e => .fault e

/-- A pointer to a heap array: NULL, live memory, or memory already released. -/
inductive Ptr (α : Type) where
  | null
  | live (a : α)
  | freed
deriving DecidableEq, Repr

/-- What the module can hold from the kernel: the two blocks it asks `kcalloc`
for, and the two debugfs entries it creates. -/
inductive Resource where
  | wstats_mem
  | counters_mem
  | debugfs_dir
  | debugfs_file
deriving DecidableEq, Repr

/-- The call `kfree(p)`, where `p` points to the block `r` and `held` lists what
the module holds: NULL is ignored, a live block is given back to the kernel and
leaves `held`, a block already given back is a double free.  The pointer
variable itself keeps its value (it dangles) until the caller overwrites it. -/
def kfree {α : Type} (p : Ptr α) (r : Resource) (held : List Resource) :
    Outcome (Ptr α × List Resource) :=
  match p with
  | .null => .ok (.null, held)
  | .live _ => .ok (.freed, held.erase r)
  | .freed => .fault .double_free

/-- The call `debugfs_remove_recursive(dbg_dir)`: the directory and the file in
it are given back. -/
def debugfs_remove_recursive (held : List Resource) : List Resource :=
  (held.erase .debugfs_file).erase .debugfs_dir

/-- Dereference of an array pointer. -/
def Ptr.deref {α : Type} (p : Ptr α) : Outcome α :=
  match p with
  | .null => .fault .null_deref
  | .live a => .ok a
  | .freed => .fault .use_after_free

/-! ## Data model -/

/-- The module parameters `threads`, `iterations`, `work_size`, `bind_cpus`. -/
structure Params where
  threads : Int
  iterations : Nat
  work_size : Int
  bind_cpus : Bool
deriving DecidableEq, Repr

/-- The record `struct worker_stats`.  `task` is the `task_struct` pointer
(`none` is NULL, `some i` the thread created for record `i`); `stats_lock` is
represented by the atomicity of the steps that take it. -/
structure worker_stats where
  id : Int
  task : Option Nat
  acquires : Nat
  total_wait_ns : Nat
  max_wait_ns : Nat
  total_hold_ns : Nat
  max_hold_ns : Nat
  last_cpu : Int
deriving DecidableEq, Repr

/-- A record as `kcalloc` hands it out: every byte zero. -/
def zeroed_stats : worker_stats :=
  { id := 0, task := none, acquires := 0, total_wait_ns := 0, max_wait_ns := 0,
    total_hold_ns := 0, max_hold_ns := 0, last_cpu := 0 }

/-- The field assignments at the top of the creation loop of `tsp_kbench_init`
(lines 224-230) applied to the record of index `i`. -/
def init_stats (st : worker_stats) (i : Nat) : worker_stats :=
  { st with id := (i : Int), acquires := 0, total_wait_ns := 0, max_wait_ns := 0,
            total_hold_ns := 0, max_hold_ns := 0, last_cpu := -1 }

/-- The statements of `worker_fn` between `spin_lock(&st->stats_lock)` and the
matching unlock (lines 97-104), for the samples `wait_ns` and `hold_ns` and the
processor `cpu` returned by `smp_processor_id()`. -/
def stats_update (st : worker_stats) (wait_ns hold_ns : Nat) (cpu : Int) : worker_stats :=
  { st with
    acquires := (st.acquires + 1) % U64_MOD
    total_wait_ns := (st.total_wait_ns + wait_ns) % U64_MOD
    max_wait_ns := if wait_ns > st.max_wait_ns then wait_ns else st.max_wait_ns
    total_hold_ns := (st.total_hold_ns + hold_ns) % U64_MOD
    max_hold_ns := if hold_ns > st.max_hold_ns then hold_ns else st.max_hold_ns
    last_cpu := cpu }

/-- One (wait, hold) sample together with the processor it was recorded on. -/
structure Sample where
  wait_ns : Nat
  hold_ns : Nat
  cpu : Int
deriving DecidableEq, Repr

/-- The stats-update step repeated over a sequence of samples, oldest first. -/
def record_samples (st : worker_stats) (samples : List Sample) : worker_stats :=
  samples.foldl (fun acc x => stats_update acc x.wait_ns x.hold_ns x.cpu) st

/-! ## The reporter -/

/-- One data line of the report: the seven values given to `seq_printf`. -/
structure Row where
  id : Int
  last_cpu : Int
  acquires : Nat
  avg_wait_ns : Nat
  max_wait_ns : Nat
  avg_hold_ns : Nat
  max_hold_ns : Nat
deriving DecidableEq, Repr

/-- A line of the report. -/
inductive Line where
  | header
  | row (r : Row)
deriving DecidableEq, Repr

/-- The text of the header line written by `seq_puts`. -/
def header_text : String :=
  "id,last_cpu,acquires,avg_wait_ns,max_wait_ns,avg_hold_ns,max_hold_ns\n"

/-- Unsigned 64-bit division as the processor performs it: dividing by zero
is a fault. -/
def div64 (a b : Nat) : Outcome Nat :=
  if b = 0 then .fault .div_by_zero else .ok (a / b)

/-- The body of the loop of `stats_show` (lines 124-142) for one record: the
snapshot under `stats_lock`, then one of the two `seq_printf` calls. -/
def show_row (st : worker_stats) : Outcome Row :=
  let acquires := st.acquires
  let tw := st.total_wait_ns
  let th := st.total_hold_ns
  let mw := st.max_wait_ns
  let mh := st.max_hold_ns
  if acquires > 0 then
    (div64 tw acquires).bind fun aw =>
    (div64 th acquires).bind fun ah =>
    .ok { id := st.id, last_cpu := st.last_cpu, acquires := acquires,
          avg_wait_ns := aw, max_wait_ns := mw, avg_hold_ns := ah, max_hold_ns := mh }
  else
    .ok { id := st.id, last_cpu := st.last_cpu, acquires := 0,
          avg_wait_ns := 0, max_wait_ns := 0, avg_hold_ns := 0, max_hold_ns := 0 }

/-! ## Kernel threads -/

/-- The program points of `worker_fn`. -/
inductive PC where
  /-- entry: optional CPU binding, `allow_signal`, `i = 0` -/
  | start
  /-- the loop condition; when it holds, `t0 = now_ns()` -/
  | loop_head
  /-- at `spin_lock(&global_lock)` -/
  | at_lock
  /-- lock taken: `t1 = now_ns(); wait_ns = t1 - t0` -/
  | locked
  /-- start of the critical section: `hold0 = now_ns(); j = 0` -/
  | cs_begin
  /-- the inner loop: `shared_counters[j]++` while `j < work_size`, then
  `hold1 = now_ns(); hold_ns = hold1 - hold0` -/
  | cs
  /-- at `spin_unlock(&global_lock)` -/
  | at_unlock
  /-- the stats update under `st->stats_lock` -/
  | stats
  /-- end of the loop body: `signal_pending` check, `cond_resched()`, `++i` -/
  | after_stats
  /-- the wait `while (!kthread_should_stop()) schedule();` -/
  | wait_stop
  /-- returned: `worker_fn` is over -/
  | exited
deriving DecidableEq, Repr

/-- The local state of one kernel thread running `worker_fn`: its program
point, its local variables, the index `st` of the record its `data` argument
points to, and the two flags it polls. -/
structure Worker where
  pc : PC
  st : Nat
  i : Nat
  j : Nat
  t0 : Nat
  wait_ns : Nat
  hold0 : Nat
  hold_ns : Nat
  should_stop : Bool
  sig_pending : Bool
deriving DecidableEq, Repr

/-- A thread as `kthread_run(worker_fn, &wstats[i], name)` creates it. -/
def fresh_worker (i : Nat) : Worker :=
  { pc := .start, st := i, i := 0, j := 0, t0 := 0, wait_ns := 0, hold0 := 0,
    hold_ns := 0, should_stop := false, sig_pending := false }

/-- The program points between `spin_lock(&global_lock)` and the matching
`spin_unlock`. -/
def PC.in_cs : PC → Bool
  | .locked => true
  | .cs_begin => true
  | .cs => true
  | .at_unlock => true
  | _ => false

/-- The calls into the thread API, recorded in the order they are made. -/
inductive Call where
  | kthread_run (i : Nat)
  | kthread_stop (t : Nat)
deriving DecidableEq, Repr

/-- The globals of the module together with the threads it has created.
`global_lock` is `some w` while thread `w` holds the spinlock; `held` lists the
blocks and debugfs entries obtained from the kernel and not yet given back. -/
structure KState where
  wstats : Ptr (List worker_stats)
  shared_counters : Ptr (List Nat)
  dbg_dir : Bool
  dbg_stats_file : Bool
  created_threads : Nat
  global_lock : Option Nat
  kthreads : List Worker
  calls : List Call
  held : List Resource
deriving DecidableEq, Repr

/-- The state of a freshly loaded module: every global is zero and nothing is
held from the kernel. -/
def boot : KState :=
  { wstats := .null, shared_counters := .null, dbg_dir := false, dbg_stats_file := false,
    created_threads := 0, global_lock := none, kthreads := [], calls := [], held := [] }

/-- Replace the local state of thread `w`. -/
def KState.set_thread (s : KState) (w : Nat) (k : Worker) : KState :=
  { s with kthreads := s.kthreads.set w k }

/-- The function `worker_fn`, one step at a time: the next step of thread `w`
from its program point.  `now` is what `now_ns()` returns if
the step reads the clock and `cpu` what `smp_processor_id()` returns if the step
asks for it.  A thread that spins on the lock, waits for a stop request or has
exited leaves the state unchanged. -/
def worker_fn (p : Params) (s : KState) (w : Nat) (now : Nat) (cpu : Int) : Outcome KState :=
  match s.kthreads[w]? with
  | none => .ok s
  | some k =>
    match k.pc with
    | .start => .ok (s.set_thread w { k with pc := .loop_head, i := 0 })
    | .loop_head =>
      if k.i < p.iterations ∧ k.should_stop = false then
        .ok (s.set_thread w { k with t0 := now % U64_MOD, pc := .at_lock })
      else
        .ok (s.set_thread w { k with pc := .wait_stop })
    | .at_lock =>
      match s.global_lock with
      | none => .ok { s.set_thread w { k with pc := .locked } with global_lock := some w }
      | some _ => .ok s
    | .locked =>
      .ok (s.set_thread w { k with wait_ns := sub64 (now % U64_MOD) k.t0, pc := .cs_begin })
    | .cs_begin => .ok (s.set_thread w { k with hold0 := now % U64_MOD, j := 0, pc := .cs })
    | .cs =>
      if (k.j : Int) < p.work_size then
        s.shared_counters.deref.bind fun cs =>
        match cs[k.j]? with
        | none => .fault .out_of_bounds
        | some c =>
          .ok { s.set_thread w { k with j := k.j + 1 } with
                shared_counters := .live (cs.set k.j ((c + 1) % U64_MOD)) }
      else
        .ok (s.set_thread w { k with hold_ns := sub64 (now % U64_MOD) k.hold0, pc := .at_unlock })
    | .at_unlock => .ok { s.set_thread w { k with pc := .stats } with global_lock := none }
    | .stats =>
      s.wstats.deref.bind fun ws =>
      match ws[k.st]? with
      | none => .fault .out_of_bounds
      | some st =>
        .ok { s.set_thread w { k with pc := .after_stats } with
              wstats := .live (ws.set k.st (stats_update st k.wait_ns k.hold_ns cpu)) }
    | .after_stats =>
      if k.sig_pending then .ok (s.set_thread w { k with pc := .wait_stop })
      else .ok (s.set_thread w { k with i := k.i + 1, pc := .loop_head })
    | .wait_stop =>
      if k.should_stop then .ok (s.set_thread w { k with pc := .exited }) else .ok s
    | .exited => .ok s

/-- What can happen to the running module: a thread executes its next step, a
signal is delivered to a thread, or a stop request is posted for a thread. -/
inductive Event where
  | step (w : Nat) (now : Nat) (cpu : Int)
  | signal (w : Nat)
  | stop (w : Nat)
deriving DecidableEq, Repr

/-- Delivery of a signal to thread `w`: `signal_pending` becomes true. -/
def deliver_signal (s : KState) (w : Nat) : KState :=
  match s.kthreads[w]? with
  | none => s
  | some k => s.set_thread w { k with sig_pending := true }

/-- The stop request of `kthread_stop`: `kthread_should_stop` becomes true. -/
def request_stop (s : KState) (w : Nat) : KState :=
  match s.kthreads[w]? with
  | none => s
  | some k => s.set_thread w { k with should_stop := true }

/-- The effect of one event. -/
def apply_event (p : Params) (s : KState) : Event → Outcome KState
  | .step w now cpu => worker_fn p s w now cpu
  | .signal w => .ok (deliver_signal s w)
  | .stop w => .ok (request_stop s w)

/-- The effect of a sequence of events, first to last. -/
def run (p : Params) (s : KState) : List Event → Outcome KState
  | [] => .ok s
  | e :: es => (apply_event p s e).bind fun s1 => run p s1 es

/-! ## The reporter, continued -/

/-- The loop `for (i = 0; i < threads; ++i)` of `stats_show`, from index `i`,
with `n` rounds left. -/
def show_rows (wstats : Ptr (List worker_stats)) (i : Nat) : Nat → Outcome (List Line)
  | 0 => .ok []
  | n + 1 =>
    wstats.deref.bind fun ws =>
    match ws[i]? with
    | none => .fault .out_of_bounds
    | some st =>
      (show_row st).bind fun r =>
      (show_rows wstats (i + 1) n).bind fun rest =>
      .ok (Line.row r :: rest)

/-- The function `stats_show`: the header, then one line per index below
`threads`. -/
def stats_show (p : Params) (s : KState) : Outcome (List Line) :=
  (show_rows s.wstats 0 p.threads.toNat).bind fun rows => .ok (Line.header :: rows)

/-! ## Startup and teardown -/

/-- The answers of the kernel to the requests `tsp_kbench_init` makes: whether
each `kcalloc` returns memory, whether the debugfs directory and file are
created, and whether `kthread_run` for index `i` returns a thread. -/
structure Env where
  alloc_wstats_ok : Bool
  alloc_counters_ok : Bool
  debugfs_dir_ok : Bool
  debugfs_file_ok : Bool
  kthread_run_ok : Nat → Bool

/-- The thread-creation loop of `tsp_kbench_init` (lines 222-241), from index
`i`, with `n` rounds left. -/
def spawn_loop (env : Env) (s : KState) (i : Nat) : Nat → Outcome KState
  | 0 => .ok s
  | n + 1 =>
    s.wstats.deref.bind fun ws =>
    match ws[i]? with
    | none => .fault .out_of_bounds
    | some st =>
      let st1 := init_stats st i
      let s1 := { s with calls := s.calls ++ [Call.kthread_run i] }
      if env.kthread_run_ok i then
        spawn_loop env
          { s1 with wstats := .live (ws.set i { st1 with task := some s.kthreads.length })
                    kthreads := s.kthreads ++ [fresh_worker i]
                    created_threads := s.created_threads + 1 } (i + 1) n
      else
        .ok { s1 with wstats := .live (ws.set i { st1 with task := none }) }

/-- The call `kthread_stop(task)`: post the stop request, let the threads run
(`evs` is what they do meanwhile), and return once thread `t` has exited.  A
schedule under which the thread has not exited yields `Fault.blocked`: the call
has not returned. -/
def kthread_stop (p : Params) (evs : List Event) (s : KState) (t : Nat) : Outcome KState :=
  (run p (request_stop { s with calls := s.calls ++ [Call.kthread_stop t] } t) evs).bind fun s1 =>
    match s1.kthreads[t]? with
    | none => .fault .blocked
    | some k => if k.pc = .exited then .ok s1 else .fault .blocked

/-- The loop of `cleanup_all` that stops the created threads (lines 171-178),
from index `i`, with `n` rounds left; `drain i` is what the threads do while
`kthread_stop` waits for thread `i`. -/
def stop_loop (p : Params) (drain : Nat → List Event) (s : KState) (i : Nat) :
    Nat → Outcome KState
  | 0 => .ok s
  | n + 1 =>
    s.wstats.deref.bind fun ws =>
    match ws[i]? with
    | none => .fault .out_of_bounds
    | some st =>
      match st.task with
      | none => stop_loop p drain s (i + 1) n
      | some t =>
        (kthread_stop p (drain i) s t).bind fun s1 =>
        s1.wstats.deref.bind fun ws1 =>
        match ws1[i]? with
        | none => .fault .out_of_bounds
        | some st1 =>
          stop_loop p drain { s1 with wstats := .live (ws1.set i { st1 with task := none }) }
            (i + 1) n

/-- The statement `kfree(shared_counters)`. -/
def kfree_shared_counters (s : KState) : Outcome KState :=
  (kfree s.shared_counters .counters_mem s.held).bind fun f =>
  .ok { s with shared_counters := f.1, held := f.2 }

/-- The statement `kfree(wstats)`. -/
def kfree_wstats (s : KState) : Outcome KState :=
  (kfree s.wstats .wstats_mem s.held).bind fun f =>
  .ok { s with wstats := f.1, held := f.2 }

/-- The function `cleanup_all`; `drain i` is what the threads do while
`kthread_stop` waits for thread `i`.  `put_task_struct` and `msleep` leave the
modelled state as it is. -/
def cleanup_all (p : Params) (drain : Nat → List Event) (s : KState) : Outcome KState :=
  let s0 := if s.dbg_dir then
      { s with held := debugfs_remove_recursive s.held, dbg_dir := false, dbg_stats_file := false }
    else s
  (stop_loop p drain s0 0 s0.created_threads).bind fun s1 =>
  (kfree_shared_counters s1).bind fun s2 =>
  (kfree_wstats { s2 with shared_counters := .null }).bind fun s3 =>
  .ok { s3 with wstats := .null }

/-- The debugfs part of `tsp_kbench_init` (lines 208-219). -/
def create_debugfs (env : Env) (s : KState) : KState :=
  if env.debugfs_dir_ok then
    if env.debugfs_file_ok then
      { s with dbg_dir := true, dbg_stats_file := true,
               held := s.held ++ [Resource.debugfs_dir, Resource.debugfs_file] }
    else
      { s with dbg_dir := false, dbg_stats_file := false,
               held := debugfs_remove_recursive (s.held ++ [Resource.debugfs_dir]) }
  else { s with dbg_dir := false }

/-- The function `tsp_kbench_init`, run on the state `s` under the kernel
answers `env`: the return value and the state it leaves. -/
def tsp_kbench_init (p : Params) (env : Env) (s : KState) : Outcome (Int × KState) :=
  if p.threads ≤ 0 then .ok (-EINVAL, s)
  else if env.alloc_wstats_ok = false then .ok (-ENOMEM, { s with wstats := .null })
  else
    let s1 := { s with wstats := .live (List.replicate p.threads.toNat zeroed_stats)
                       held := s.held ++ [Resource.wstats_mem] }
    if env.alloc_counters_ok = false then
      (kfree_wstats { s1 with shared_counters := .null }).bind fun s2 => .ok (-ENOMEM, s2)
    else
      let s2 := { s1 with shared_counters := .live (List.replicate (max 1 p.work_size).toNat 0)
                          held := s1.held ++ [Resource.counters_mem]
                          global_lock := none }
      let s3 := create_debugfs env s2
      (spawn_loop env s3 0 p.threads.toNat).bind fun s4 =>
      if s4.created_threads = 0 then
        (cleanup_all p (fun _ => []) s4).bind fun s5 => .ok (-ENOMEM, s5)
      else .ok (0, s4)

/-- The function `tsp_kbench_exit`. -/
def tsp_kbench_exit (p : Params) (drain : Nat → List Event) (s : KState) : Outcome KState :=
  cleanup_all p drain s

/-! ## Vocabulary of the proofs -/

/-- The step of thread `w` seen from the thread: `Step p w now cpu k lock ws cs
k1 lock1 ws1 cs1` relates the local state `k`, the lock, the records and the
counters before one step of `worker_fn` to the same four after it.  There is
one rule per branch of `worker_fn`. -/
inductive Step (p : Params) (w now : Nat) (cpu : Int) :
    Worker → Option Nat → List worker_stats → List Nat →
    Worker → Option Nat → List worker_stats → List Nat → Prop where
  | start (k lock ws cs) : k.pc = .start →
      Step p w now cpu k lock ws cs { k with pc := .loop_head, i := 0 } lock ws cs
  | enter (k lock ws cs) : k.pc = .loop_head → k.i < p.iterations → k.should_stop = false →
      Step p w now cpu k lock ws cs { k with t0 := now % U64_MOD, pc := .at_lock } lock ws cs
  | leave (k lock ws cs) : k.pc = .loop_head → ¬ (k.i < p.iterations ∧ k.should_stop = false) →
      Step p w now cpu k lock ws cs { k with pc := .wait_stop } lock ws cs
  | acquire (k ws cs) : k.pc = .at_lock →
      Step p w now cpu k none ws cs { k with pc := .locked } (some w) ws cs
  | spin (k h ws cs) : k.pc = .at_lock →
      Step p w now cpu k (some h) ws cs k (some h) ws cs
  | locked (k lock ws cs) : k.pc = .locked →
      Step p w now cpu k lock ws cs
        { k with wait_ns := sub64 (now % U64_MOD) k.t0, pc := .cs_begin } lock ws cs
  | cs_begin (k lock ws cs) : k.pc = .cs_begin →
      Step p w now cpu k lock ws cs { k with hold0 := now % U64_MOD, j := 0, pc := .cs } lock ws cs
  | incr (k lock ws cs c) : k.pc = .cs → (k.j : Int) < p.work_size → cs[k.j]? = some c →
      Step p w now cpu k lock ws cs { k with j := k.j + 1 } lock ws
        (cs.set k.j ((c + 1) % U64_MOD))
  | cs_end (k lock ws cs) : k.pc = .cs → ¬ (k.j : Int) < p.work_size →
      Step p w now cpu k lock ws cs
        { k with hold_ns := sub64 (now % U64_MOD) k.hold0, pc := .at_unlock } lock ws cs
  | unlock (k lock ws cs) : k.pc = .at_unlock →
      Step p w now cpu k lock ws cs { k with pc := .stats } none ws cs
  | stats (k lock ws cs st) : k.pc = .stats → ws[k.st]? = some st →
      Step p w now cpu k lock ws cs { k with pc := .after_stats } lock
        (ws.set k.st (stats_update st k.wait_ns k.hold_ns cpu)) cs
  | interrupted (k lock ws cs) : k.pc = .after_stats → k.sig_pending = true →
      Step p w now cpu k lock ws cs { k with pc := .wait_stop } lock ws cs
  | next (k lock ws cs) : k.pc = .after_stats → k.sig_pending = false →
      Step p w now cpu k lock ws cs { k with i := k.i + 1, pc := .loop_head } lock ws cs
  | stopped (k lock ws cs) : k.pc = .wait_stop → k.should_stop = true →
      Step p w now cpu k lock ws cs { k with pc := .exited } lock ws cs
  | waiting (k lock ws cs) : k.pc = .wait_stop → k.should_stop = false →
      Step p w now cpu k lock ws cs k lock ws cs
  | exited (k lock ws cs) : k.pc = .exited →
      Step p w now cpu k lock ws cs k lock ws cs

/-- The invariant of the module between a successful startup and teardown: both
arrays are live and have their allocated sizes, thread `w` works on record `w`,
and a thread is between `spin_lock` and `spin_unlock` exactly when it is the
holder of `global_lock`. -/
structure Running (p : Params) (s : KState) : Prop where
  ws_live : ∃ ws, s.wstats = .live ws ∧ ws.length = p.threads.toNat
  cs_live : ∃ cs, s.shared_counters = .live cs ∧ cs.length = (max 1 p.work_size).toNat
  threads_le : s.kthreads.length ≤ p.threads.toNat
  created : s.created_threads = s.kthreads.length
  st_eq : ∀ (w : Nat) (k : Worker), s.kthreads[w]? = some k → k.st = w
  mutex : ∀ (w : Nat) (k : Worker), s.kthreads[w]? = some k → (k.pc.in_cs = true ↔ s.global_lock = some w)
  holder : ∀ h, s.global_lock = some h → h < s.kthreads.length

/-- The kernel that grants every request. -/
def env_all_ok : Env :=
  { alloc_wstats_ok := true, alloc_counters_ok := true, debugfs_dir_ok := true,
    debugfs_file_ok := true, kthread_run_ok := fun _ => true }

/-- The kernel that grants every request except the creation of thread `k`. -/
def env_fail_at (k : Nat) : Env :=
  { alloc_wstats_ok := true, alloc_counters_ok := true, debugfs_dir_ok := true,
    debugfs_file_ok := true, kthread_run_ok := fun i => i != k }

/-- The module right after both `kcalloc` calls of `tsp_kbench_init` have
returned memory and `global_lock` is initialised. -/
def allocated (p : Params) : KState :=
  { boot with wstats := .live (List.replicate p.threads.toNat zeroed_stats)
              shared_counters := .live (List.replicate (max 1 p.work_size).toNat 0)
              held := [Resource.wstats_mem, Resource.counters_mem] }

/-- The module at the test `created_threads == 0` of `tsp_kbench_init` (line
243), when both arrays were allocated. -/
def at_thread_check (p : Params) (env : Env) : KState :=
  match spawn_loop env (create_debugfs env (allocated p)) 0 p.threads.toNat with
  | .ok s => s
  | .fault _ => boot

/-- The state a successful or failed startup leaves, from the freshly loaded
module. -/
def started (p : Params) (env : Env) : KState :=
  match tsp_kbench_init p env boot with
  | .ok (_, s) => s
  | .fault _ => boot

/-- How many times thread `k` has incremented counter `jj` so far, while no
signal or stop request has reached it: once per finished pass over the inner
loop, and once more when the running pass is already beyond index `jj`. -/
def touched (k : Worker) (jj : Nat) : Nat :=
  k.i + (match k.pc with
    | .cs => if jj < k.j then 1 else 0
    | .at_unlock => 1
    | .stats => 1
    | .after_stats => 1
    | _ => 0)

/-- How many stats updates thread `k` has made so far, while no signal or stop
request has reached it. -/
def completed (k : Worker) : Nat :=
  k.i + (if k.pc = .after_stats then 1 else 0)

/-- What holds of the local variables of a thread that no signal and no stop
request has reached. -/
def local_ok (p : Params) (k : Worker) : Prop :=
  k.should_stop = false ∧ k.sig_pending = false ∧ k.i ≤ p.iterations ∧
  (match k.pc with
    | .start => k.i = 0
    | .loop_head => True
    | .wait_stop => k.i = p.iterations
    | .exited => False
    | .cs => k.i < p.iterations ∧ (k.j : Int) ≤ max 0 p.work_size
    | _ => k.i < p.iterations)

/-- The bookkeeping invariant of a run without signals and stop requests:
every record counts the stats updates of its thread, and every counter below
`work_size` counts the increments made by all threads, both modulo `2 ^ 64`;
the counters at or above `work_size` are still zero. -/
structure Counting (p : Params) (s : KState) : Prop where
  running : Running p s
  loc : ∀ (w : Nat) (k : Worker), s.kthreads[w]? = some k → local_ok p k
  acq : ∀ (w : Nat) (k : Worker) (ws : List worker_stats) (st : worker_stats),
    s.kthreads[w]? = some k → s.wstats = .live ws → ws[w]? = some st →
    st.acquires = completed k % U64_MOD
  cnt : ∀ (cs : List Nat) (jj : Nat), s.shared_counters = .live cs → (jj : Int) < p.work_size →
    cs[jj]? = some ((s.kthreads.map fun k => touched k jj).sum % U64_MOD)

/-- The number of steps a thread inside the bracket takes until it has released
`global_lock`. -/
def cs_steps (p : Params) (k : Worker) : Nat :=
  match k.pc with
  | .locked => p.work_size.toNat + 4
  | .cs_begin => p.work_size.toNat + 3
  | .cs => (p.work_size.toNat - k.j) + 2
  | .at_unlock => 1
  | _ => 0

/-- The number of steps of one pass over the loop body of `worker_fn`. -/
def loop_len (p : Params) : Nat := p.work_size.toNat + 8

/-- The number of steps from the loop condition, evaluated with loop counter
`i` by a thread whose flags are `stop` and `sig`, until the thread waits for its
stop request. -/
def tail_steps (p : Params) (stop sig : Bool) (i : Nat) : Nat :=
  if stop = true ∨ p.iterations ≤ i then 1
  else if sig = true then loop_len p
  else (p.iterations - i) * loop_len p + 1

/-- The number of steps from the end of the loop body until the thread waits
for its stop request. -/
def after_steps (p : Params) (k : Worker) : Nat :=
  if k.sig_pending = true then 1 else 1 + tail_steps p k.should_stop k.sig_pending (k.i + 1)

/-- The number of steps a thread that is never kept waiting for the lock, and
whose flags do not change, takes until it waits for its stop request. -/
def steps_left (p : Params) (k : Worker) : Nat :=
  match k.pc with
  | .start => 1 + tail_steps p k.should_stop k.sig_pending 0
  | .loop_head => tail_steps p k.should_stop k.sig_pending k.i
  | .at_lock => p.work_size.toNat + 6 + after_steps p k
  | .locked => p.work_size.toNat + 5 + after_steps p k
  | .cs_begin => p.work_size.toNat + 4 + after_steps p k
  | .cs => (p.work_size.toNat - k.j) + 3 + after_steps p k
  | .at_unlock => 2 + after_steps p k
  | .stats => 1 + after_steps p k
  | .after_stats => after_steps p k
  | .wait_stop => 0
  | .exited => 0

/-- What no event changes: the bookkeeping of `tsp_kbench_init`, what is held
from the kernel, the number of threads, the `task` and `id` fields of the
records, and the records for which no thread exists. -/
structure Kept (s s1 : KState) : Prop where
  created : s1.created_threads = s.created_threads
  calls : s1.calls = s.calls
  nthreads : s1.kthreads.length = s.kthreads.length
  dbg_dir : s1.dbg_dir = s.dbg_dir
  dbg_file : s1.dbg_stats_file = s.dbg_stats_file
  held : s1.held = s.held
  records : ∀ ws ws1, s.wstats = .live ws → s1.wstats = .live ws1 →
    ws1.map (fun st => st.task) = ws.map (fun st => st.task) ∧
    ws1.map (fun st => st.id) = ws.map (fun st => st.id) ∧
    ∀ m, s.kthreads.length ≤ m → ws1[m]? = ws[m]?

/-- Whether an event is a step of thread `w`. -/
def Event.by_thread (w : Nat) : Event → Bool
  | .step v _ _ => v == w
  | _ => false

/-- The counters `cs` are the counters `cs0` with the first `j` of them
incremented once, modulo `2 ^ 64`. -/
def bumped (cs0 cs : List Nat) (j : Nat) : Prop :=
  cs.length = cs0.length ∧
  ∀ jj, cs[jj]? = if jj < j then (cs0[jj]?).map (fun c => (c + 1) % U64_MOD) else cs0[jj]?

/-- The relation between the counters `cs0` at the moment a thread took the
lock and the counters `cs` while the thread, with local state `k`, is still
inside the bracket. -/
def in_section (p : Params) (cs0 : List Nat) (k : Worker) (cs : List Nat) : Prop :=
  match k.pc with
  | .locked => cs = cs0
  | .cs_begin => cs = cs0
  | .cs => k.j ≤ p.work_size.toNat ∧ bumped cs0 cs k.j
  | .at_unlock => bumped cs0 cs p.work_size.toNat
  | _ => False

/-- The state a schedule leads to (the state itself if the schedule faults). -/
def after (p : Params) (s : KState) (evs : List Event) : KState :=
  match run p s evs with
  | .ok s1 => s1
  | .fault _ => s

theorem bind_ok_iff {α β : Type} (x : Outcome α) (f : α → Outcome β) (b : β) :
    x.bind f = .ok b ↔ ∃ a, x = .ok a ∧ f a = .ok b := by
  cases x <;> simp [Outcome.bind]

theorem deref_live {α : Type} (a : α) : (Ptr.live a).deref = .ok a := rfl

/-! ### The reporter -/

theorem show_row_zero (st : worker_stats) (h : st.acquires = 0) :
    show_row st = .ok ⟨st.id, st.last_cpu, 0, 0, 0, 0, 0⟩ := by
  simp [show_row, h]

theorem show_row_pos (st : worker_stats) (h : 0 < st.acquires) :
    show_row st = .ok ⟨st.id, st.last_cpu, st.acquires, st.total_wait_ns / st.acquires,
      st.max_wait_ns, st.total_hold_ns / st.acquires, st.max_hold_ns⟩ := by
  have h0 : st.acquires ≠ 0 := Nat.pos_iff_ne_zero.mp h
  simp [show_row, h, div64, h0, Outcome.bind]

theorem show_row_ok (st : worker_stats) : ∃ r, show_row st = .ok r ∧ r.id = st.id ∧
    r.last_cpu = st.last_cpu ∧ (st.acquires = 0 → r.acquires = 0 ∧ r.avg_wait_ns = 0 ∧
      r.max_wait_ns = 0 ∧ r.avg_hold_ns = 0 ∧ r.max_hold_ns = 0) := by
  rcases Nat.eq_zero_or_pos st.acquires with h | h
  · exact ⟨_, show_row_zero st h, rfl, rfl, fun _ => ⟨rfl, rfl, rfl, rfl, rfl⟩⟩
  · refine ⟨_, show_row_pos st h, rfl, rfl, fun h0 => ?_⟩
    omega

theorem show_rows_live (ws : List worker_stats) (n : Nat) :
    ∀ i, i + n ≤ ws.length →
      ∃ rows, show_rows (.live ws) i n = .ok rows ∧ rows.length = n ∧
        ∀ m, m < n → ∃ st r, ws[i + m]? = some st ∧ show_row st = .ok r ∧
          rows[m]? = some (Line.row r) := by
  induction n with
  | zero => intro i _; exact ⟨[], rfl, rfl, fun m hm => absurd hm (Nat.not_lt_zero m)⟩
  | succ n ih =>
    intro i hi
    have hlt : i < ws.length := by omega
    obtain ⟨rest, hrest, hlen, hrows⟩ := ih (i + 1) (by omega)
    obtain ⟨r, hr, -⟩ := show_row_ok ws[i]
    refine ⟨Line.row r :: rest, ?_, by simp [hlen], ?_⟩
    · simp [show_rows, deref_live, Outcome.bind, List.getElem?_eq_getElem hlt, hr, hrest]
    · intro m hm
      cases m with
      | zero => exact ⟨ws[i], r, by simp [List.getElem?_eq_getElem hlt], hr, by simp⟩
      | succ m =>
        obtain ⟨st, r1, h1, h2, h3⟩ := hrows m (by omega)
        refine ⟨st, r1, ?_, h2, by simpa using h3⟩
        rw [← h1]; congr 1; omega

theorem stats_show_live (p : Params) (s : KState) (ws : List worker_stats)
    (hws : s.wstats = .live ws) (hlen : p.threads.toNat ≤ ws.length) :
    ∃ rows, stats_show p s = .ok (Line.header :: rows) ∧ rows.length = p.threads.toNat ∧
      ∀ m, m < p.threads.toNat → ∃ st r, ws[m]? = some st ∧ show_row st = .ok r ∧
        rows[m]? = some (Line.row r) := by
  obtain ⟨rows, h1, h2, h3⟩ := show_rows_live ws p.threads.toNat 0 (by omega)
  refine ⟨rows, ?_, h2, ?_⟩
  · simp [stats_show, hws, h1, Outcome.bind]
  · intro m hm
    simpa using h3 m hm

/-- C1: for a record whose `acquires` is 0 the reporter `stats_show` emits,
without fault, the row `id,last_cpu,0,0,0,0,0` whatever the other fields hold;
for a record with `acquires > 0` it emits `total_wait / acquires` and
`total_hold / acquires` together with the stored maxima. -/
theorem stats_show_guards_zero_acquires (p : Params) (s : KState) (ws : List worker_stats)
    (i : Nat) (st : worker_stats) (hws : s.wstats = .live ws)
    (hlen : p.threads.toNat ≤ ws.length) (hi : i < p.threads.toNat) (hst : ws[i]? = some st) :
    ∃ lines, stats_show p s = .ok lines ∧ lines.length = p.threads.toNat + 1 ∧
      lines[0]? = some Line.header ∧
      (st.acquires = 0 →
        lines[i + 1]? = some (Line.row ⟨st.id, st.last_cpu, 0, 0, 0, 0, 0⟩)) ∧
      (0 < st.acquires →
        lines[i + 1]? = some (Line.row ⟨st.id, st.last_cpu, st.acquires,
          st.total_wait_ns / st.acquires, st.max_wait_ns,
          st.total_hold_ns / st.acquires, st.max_hold_ns⟩)) := by
  obtain ⟨rows, h1, h2, h3⟩ := stats_show_live p s ws hws hlen
  obtain ⟨st1, r, hst1, hr, hrow⟩ := h3 i hi
  have hEq : st1 = st := by rw [hst] at hst1; exact (Option.some.inj hst1).symm
  subst hEq
  refine ⟨_, h1, by simp [h2], by simp, ?_, ?_⟩
  · intro h0
    rw [show_row_zero st1 h0] at hr
    simp only [List.getElem?_cons_succ, hrow]
    cases hr; rfl
  · intro h0
    rw [show_row_pos st1 h0] at hr
    simp only [List.getElem?_cons_succ, hrow]
    cases hr; rfl

/-! ### The stats update -/

theorem record_samples_cons (st : worker_stats) (x : Sample) (xs : List Sample) :
    record_samples st (x :: xs) =
      record_samples (stats_update st x.wait_ns x.hold_ns x.cpu) xs := rfl

theorem max_wait_le_update (st : worker_stats) (w h : Nat) (c : Int) :
    st.max_wait_ns ≤ (stats_update st w h c).max_wait_ns ∧
      w ≤ (stats_update st w h c).max_wait_ns ∧
      ((stats_update st w h c).max_wait_ns = st.max_wait_ns ∨
        (stats_update st w h c).max_wait_ns = w) := by
  simp only [stats_update]
  split <;> omega

theorem max_hold_le_update (st : worker_stats) (w h : Nat) (c : Int) :
    st.max_hold_ns ≤ (stats_update st w h c).max_hold_ns ∧
      h ≤ (stats_update st w h c).max_hold_ns ∧
      ((stats_update st w h c).max_hold_ns = st.max_hold_ns ∨
        (stats_update st w h c).max_hold_ns = h) := by
  simp only [stats_update]
  split <;> omega

theorem record_samples_max_wait (samples : List Sample) : ∀ st : worker_stats,
    st.max_wait_ns ≤ (record_samples st samples).max_wait_ns ∧
    (∀ x ∈ samples, x.wait_ns ≤ (record_samples st samples).max_wait_ns) ∧
    ((record_samples st samples).max_wait_ns = st.max_wait_ns ∨
      ∃ x ∈ samples, (record_samples st samples).max_wait_ns = x.wait_ns) := by
  induction samples with
  | nil => intro st; simp [record_samples]
  | cons x xs ih =>
    intro st
    rw [record_samples_cons]
    obtain ⟨h1, h2, h3⟩ := ih (stats_update st x.wait_ns x.hold_ns x.cpu)
    obtain ⟨u1, u2, u3⟩ := max_wait_le_update st x.wait_ns x.hold_ns x.cpu
    refine ⟨le_trans u1 h1, ?_, ?_⟩
    · intro y hy
      rcases List.mem_cons.mp hy with rfl | hy
      · exact le_trans u2 h1
      · exact h2 y hy
    · rcases h3 with h3 | ⟨y, hy, h3⟩
      · rcases u3 with u3 | u3
        · exact Or.inl (h3.trans u3)
        · exact Or.inr ⟨x, List.mem_cons_self _ _, h3.trans u3⟩
      · exact Or.inr ⟨y, List.mem_cons_of_mem _ hy, h3⟩

theorem record_samples_max_hold (samples : List Sample) : ∀ st : worker_stats,
    st.max_hold_ns ≤ (record_samples st samples).max_hold_ns ∧
    (∀ x ∈ samples, x.hold_ns ≤ (record_samples st samples).max_hold_ns) ∧
    ((record_samples st samples).max_hold_ns = st.max_hold_ns ∨
      ∃ x ∈ samples, (record_samples st samples).max_hold_ns = x.hold_ns) := by
  induction samples with
  | nil => intro st; simp [record_samples]
  | cons x xs ih =>
    intro st
    rw [record_samples_cons]
    obtain ⟨h1, h2, h3⟩ := ih (stats_update st x.wait_ns x.hold_ns x.cpu)
    obtain ⟨u1, u2, u3⟩ := max_hold_le_update st x.wait_ns x.hold_ns x.cpu
    refine ⟨le_trans u1 h1, ?_, ?_⟩
    · intro y hy
      rcases List.mem_cons.mp hy with rfl | hy
      · exact le_trans u2 h1
      · exact h2 y hy
    · rcases h3 with h3 | ⟨y, hy, h3⟩
      · rcases u3 with u3 | u3
        · exact Or.inl (h3.trans u3)
        · exact Or.inr ⟨x, List.mem_cons_self _ _, h3.trans u3⟩
      · exact Or.inr ⟨y, List.mem_cons_of_mem _ hy, h3⟩

/-- C2: after any finite sequence of samples recorded by the stats update,
starting from the record as `tsp_kbench_init` initialises it, `max_wait_ns` is
at least every wait sample and `max_hold_ns` at least every hold sample; each
maximum is one of the samples, or 0 when all samples are 0. -/
theorem running_maxima_dominate_samples (st0 : worker_stats) (i : Nat) (samples : List Sample) :
    (∀ x ∈ samples, x.wait_ns ≤ (record_samples (init_stats st0 i) samples).max_wait_ns) ∧
    (∀ x ∈ samples, x.hold_ns ≤ (record_samples (init_stats st0 i) samples).max_hold_ns) ∧
    ((∃ x ∈ samples, (record_samples (init_stats st0 i) samples).max_wait_ns = x.wait_ns) ∨
      ((record_samples (init_stats st0 i) samples).max_wait_ns = 0 ∧
        ∀ x ∈ samples, x.wait_ns = 0)) ∧
    ((∃ x ∈ samples, (record_samples (init_stats st0 i) samples).max_hold_ns = x.hold_ns) ∨
      ((record_samples (init_stats st0 i) samples).max_hold_ns = 0 ∧
        ∀ x ∈ samples, x.hold_ns = 0)) := by
  obtain ⟨-, w2, w3⟩ := record_samples_max_wait samples (init_stats st0 i)
  obtain ⟨-, h2, h3⟩ := record_samples_max_hold samples (init_stats st0 i)
  refine ⟨w2, h2, ?_, ?_⟩
  · rcases w3 with w3 | w3
    · right
      have hz : (record_samples (init_stats st0 i) samples).max_wait_ns = 0 := w3
      exact ⟨hz, fun x hx => Nat.le_zero.mp (hz ▸ w2 x hx)⟩
    · exact Or.inl w3
  · rcases h3 with h3 | h3
    · right
      have hz : (record_samples (init_stats st0 i) samples).max_hold_ns = 0 := h3
      exact ⟨hz, fun x hx => Nat.le_zero.mp (hz ▸ h2 x hx)⟩
    · exact Or.inl h3

/-- C2, at the samples (5, 2), (3, 9), (7, 1): the maxima are 7 and 9. -/
theorem running_maxima_dominate_samples_witness :
    (record_samples (init_stats zeroed_stats 0) [⟨5, 2, 0⟩, ⟨3, 9, 1⟩, ⟨7, 1, 0⟩]).max_wait_ns = 7 ∧
    (record_samples (init_stats zeroed_stats 0) [⟨5, 2, 0⟩, ⟨3, 9, 1⟩, ⟨7, 1, 0⟩]).max_hold_ns = 9 ∧
    (∀ x ∈ [(⟨5, 2, 0⟩ : Sample), ⟨3, 9, 1⟩, ⟨7, 1, 0⟩], x.wait_ns ≤
      (record_samples (init_stats zeroed_stats 0) [⟨5, 2, 0⟩, ⟨3, 9, 1⟩, ⟨7, 1, 0⟩]).max_wait_ns) :=
  ⟨by decide, by decide,
    (running_maxima_dominate_samples zeroed_stats 0 [⟨5, 2, 0⟩, ⟨3, 9, 1⟩, ⟨7, 1, 0⟩]).1⟩

/-- C1, at a one-record array whose record has `acquires = 0` and non-zero
totals and maxima: the row is `0,3,0,0,0,0,0`. -/
theorem stats_show_guards_zero_acquires_witness :
    ∃ lines, stats_show ⟨1, 1, 1, false⟩
        { boot with wstats := .live [⟨0, none, 0, 17, 9, 23, 11, 3⟩] } = .ok lines ∧
      lines.length = (1 : Int).toNat + 1 ∧ lines[0]? = some Line.header ∧
      ((0 : Nat) = 0 → lines[0 + 1]? = some (Line.row ⟨0, 3, 0, 0, 0, 0, 0⟩)) ∧
      (0 < (0 : Nat) → lines[0 + 1]? = some (Line.row ⟨0, 3, 0, 17 / 0, 9, 23 / 0, 11⟩)) :=
  stats_show_guards_zero_acquires ⟨1, 1, 1, false⟩
    { boot with wstats := .live [⟨0, none, 0, 17, 9, 23, 11, 3⟩] }
    [⟨0, none, 0, 17, 9, 23, 11, 3⟩] 0 ⟨0, none, 0, 17, 9, 23, 11, 3⟩ rfl (by decide) (by decide) rfl

/-! ### Steps of a thread -/

theorem set_self_of_getElem? {α : Type} (l : List α) (w : Nat) (k : α) (h : l[w]? = some k) :
    l.set w k = l := by
  induction l generalizing w with
  | nil => rfl
  | cons a l ih =>
    cases w with
    | zero => simp at h; simp [h]
    | succ w => simp at h; simp [ih w h]

theorem KState.eta (s : KState) :
    ({ s with kthreads := s.kthreads, global_lock := s.global_lock, wstats := s.wstats,
              shared_counters := s.shared_counters } : KState) = s := rfl

theorem worker_step_none (p : Params) (s : KState) (w now : Nat) (cpu : Int)
    (h : s.kthreads[w]? = none) : worker_fn p s w now cpu = .ok s := by
  simp [worker_fn, h]

/-- The function `worker_fn` on a state whose arrays are live and large
enough takes one `Step`. -/
theorem worker_step_sound (p : Params) (s : KState) (w now : Nat) (cpu : Int) (k : Worker)
    (ws : List worker_stats) (cs : List Nat)
    (hk : s.kthreads[w]? = some k) (hws : s.wstats = .live ws) (hcs : s.shared_counters = .live cs)
    (hst : k.st < ws.length) (hsz : cs.length = (max 1 p.work_size).toNat) :
    ∃ k1 lock1 ws1 cs1, Step p w now cpu k s.global_lock ws cs k1 lock1 ws1 cs1 ∧
      worker_fn p s w now cpu =
        .ok { s with kthreads := s.kthreads.set w k1, global_lock := lock1,
                     wstats := .live ws1, shared_counters := .live cs1 } := by
  have hself : s.kthreads.set w k = s.kthreads := set_self_of_getElem? _ _ _ hk
  obtain ⟨wsP, csP, d1, d2, ct, gl, kt, cl⟩ := s
  simp only at hk hws hcs hself
  subst hws hcs
  cases hpc : k.pc
  case start =>
    exact ⟨_, _, _, _, Step.start k gl ws cs hpc, by simp [worker_fn, hk, hpc, KState.set_thread]⟩
  case loop_head =>
    by_cases hc : k.i < p.iterations ∧ k.should_stop = false
    · exact ⟨_, _, _, _, Step.enter k gl ws cs hpc hc.1 hc.2,
        by simp [worker_fn, hk, hpc, KState.set_thread, hc]⟩
    · exact ⟨_, _, _, _, Step.leave k gl ws cs hpc hc,
        by simp only [worker_fn, hk, hpc, KState.set_thread, hc]; rfl⟩
  case at_lock =>
    cases gl with
    | none => exact ⟨_, _, _, _, Step.acquire k ws cs hpc,
        by simp [worker_fn, hk, hpc, KState.set_thread]⟩
    | some h => exact ⟨_, _, _, _, Step.spin k h ws cs hpc,
        by simp [worker_fn, hk, hpc, hself]⟩
  case locked =>
    exact ⟨_, _, _, _, Step.locked k gl ws cs hpc, by simp [worker_fn, hk, hpc, KState.set_thread]⟩
  case cs_begin =>
    exact ⟨_, _, _, _, Step.cs_begin k gl ws cs hpc,
      by simp [worker_fn, hk, hpc, KState.set_thread]⟩
  case cs =>
    by_cases hc : (k.j : Int) < p.work_size
    · have hj : k.j < cs.length := by rw [hsz]; omega
      exact ⟨_, _, _, _, Step.incr k gl ws cs cs[k.j] hpc hc (List.getElem?_eq_getElem hj),
        by simp [worker_fn, hk, hpc, KState.set_thread, hc, Ptr.deref, Outcome.bind,
          List.getElem?_eq_getElem hj]⟩
    · exact ⟨_, _, _, _, Step.cs_end k gl ws cs hpc hc,
        by simp [worker_fn, hk, hpc, KState.set_thread, hc]⟩
  case at_unlock =>
    exact ⟨_, _, _, _, Step.unlock k gl ws cs hpc,
      by simp [worker_fn, hk, hpc, KState.set_thread]⟩
  case stats =>
    exact ⟨_, _, _, _, Step.stats k gl ws cs ws[k.st] hpc (List.getElem?_eq_getElem hst),
      by simp [worker_fn, hk, hpc, KState.set_thread, Ptr.deref, Outcome.bind,
        List.getElem?_eq_getElem hst]⟩
  case after_stats =>
    cases hsp : k.sig_pending
    · exact ⟨_, _, _, _, Step.next k gl ws cs hpc hsp,
        by simp [worker_fn, hk, hpc, KState.set_thread, hsp]⟩
    · exact ⟨_, _, _, _, Step.interrupted k gl ws cs hpc hsp,
        by simp [worker_fn, hk, hpc, KState.set_thread, hsp]⟩
  case wait_stop =>
    cases hss : k.should_stop
    · exact ⟨_, _, _, _, Step.waiting k gl ws cs hpc hss,
        by simp [worker_fn, hk, hpc, hss, hself]⟩
    · exact ⟨_, _, _, _, Step.stopped k gl ws cs hpc hss,
        by simp [worker_fn, hk, hpc, KState.set_thread, hss]⟩
  case exited =>
    exact ⟨_, _, _, _, Step.exited k gl ws cs hpc, by simp [worker_fn, hk, hpc, hself]⟩

theorem Step.summary {p : Params} {w now : Nat} {cpu : Int} {k k1 : Worker}
    {lock lock1 : Option Nat} {ws ws1 : List worker_stats} {cs cs1 : List Nat}
    (h : Step p w now cpu k lock ws cs k1 lock1 ws1 cs1) :
    k1.st = k.st ∧ k1.should_stop = k.should_stop ∧ k1.sig_pending = k.sig_pending ∧
    ws1.length = ws.length ∧ cs1.length = cs.length ∧
    ((k1.pc.in_cs = k.pc.in_cs ∧ lock1 = lock) ∨
      (k.pc.in_cs = false ∧ k1.pc.in_cs = true ∧ lock = none ∧ lock1 = some w) ∨
      (k.pc.in_cs = true ∧ k1.pc.in_cs = false ∧ lock1 = none)) := by
  cases h <;> simp_all [PC.in_cs]

theorem getElem?_set_cases {α : Type} (l : List α) (w : Nat) (a : α) (v : Nat) (b : α)
    (h : (l.set w a)[v]? = some b) : (v = w ∧ b = a) ∨ (v ≠ w ∧ l[v]? = some b) := by
  rw [List.getElem?_set] at h
  by_cases hv : w = v
  · subst hv
    simp only [if_true] at h
    split at h
    · exact Or.inl ⟨rfl, (Option.some.inj h).symm⟩
    · exact absurd h (by simp)
  · simp only [hv, if_false] at h
    exact Or.inr ⟨fun e => hv e.symm, h⟩

/-- A step of a thread keeps the invariant `Running` and does not fault. -/
theorem running_worker_step (p : Params) (s : KState) (w now : Nat) (cpu : Int)
    (hR : Running p s) : ∃ s1, worker_fn p s w now cpu = .ok s1 ∧ Running p s1 := by
  cases hk : s.kthreads[w]? with
  | none => exact ⟨s, worker_step_none p s w now cpu hk, hR⟩
  | some k =>
    obtain ⟨ws, hws, hwl⟩ := hR.ws_live
    obtain ⟨cs, hcs, hcl⟩ := hR.cs_live
    have hwlt : w < s.kthreads.length := by
      rcases Nat.lt_or_ge w s.kthreads.length with h | h
      · exact h
      · rw [List.getElem?_eq_none h] at hk; exact absurd hk (by simp)
    have hst : k.st < ws.length := by
      rw [hR.st_eq w k hk, hwl]; exact lt_of_lt_of_le hwlt hR.threads_le
    obtain ⟨k1, lock1, ws1, cs1, hstep, hres⟩ :=
      worker_step_sound p s w now cpu k ws cs hk hws hcs hst hcl
    obtain ⟨e1, -, -, e2, e3, e4⟩ := hstep.summary
    refine ⟨_, hres, ?_⟩
    have hmx := hR.mutex w k hk
    constructor
    · exact ⟨ws1, rfl, by rw [e2, hwl]⟩
    · exact ⟨cs1, rfl, by rw [e3, hcl]⟩
    · simpa using hR.threads_le
    · simpa using hR.created
    · intro v b hb
      rcases getElem?_set_cases _ _ _ _ _ hb with ⟨rfl, rfl⟩ | ⟨-, hb⟩
      · rw [e1]; exact hR.st_eq _ k hk
      · exact hR.st_eq v b hb
    · intro v b hb
      have hb1 : (s.kthreads.set w k1)[v]? = some b := hb
      show b.pc.in_cs = true ↔ lock1 = some v
      rcases getElem?_set_cases _ _ _ _ _ hb1 with ⟨rfl, rfl⟩ | ⟨hne, hb2⟩
      · rcases e4 with ⟨a1, a2⟩ | ⟨a1, a2, a3, a4⟩ | ⟨a1, a2, a3⟩
        · rw [a1, a2]; exact hmx
        · simp [a2, a4]
        · simp [a2, a3]
      · have hmv := hR.mutex v b hb2
        rcases e4 with ⟨a1, a2⟩ | ⟨a1, a2, a3, a4⟩ | ⟨a1, a2, a3⟩
        · rw [a2]; exact hmv
        · rw [a3] at hmv
          rw [a4]
          constructor
          · intro h; exact absurd (hmv.mp h) (by simp)
          · intro h; exact absurd (Option.some.inj h).symm hne
        · have hl : s.global_lock = some w := hmx.mp a1
          rw [hl] at hmv
          rw [a3]
          constructor
          · intro h; exact absurd (Option.some.inj (hmv.mp h)).symm hne
          · intro h; exact absurd h (by simp)
    · intro h hh
      have hh1 : lock1 = some h := hh
      show h < (s.kthreads.set w k1).length
      rw [List.length_set]
      rcases e4 with ⟨a1, a2⟩ | ⟨a1, a2, a3, a4⟩ | ⟨a1, a2, a3⟩
      · exact hR.holder h (a2 ▸ hh1)
      · rw [a4] at hh1; cases hh1; exact hwlt
      · rw [a3] at hh1; exact absurd hh1 (by simp)

/-- Only the flag changes when a flag of a thread is set. -/
theorem running_set_flag (p : Params) (s : KState) (w : Nat) (k k1 : Worker)
    (hR : Running p s) (hk : s.kthreads[w]? = some k) (hpc : k1.pc = k.pc) (hst : k1.st = k.st) :
    Running p (s.set_thread w k1) := by
  constructor
  · exact hR.ws_live
  · exact hR.cs_live
  · simpa [KState.set_thread] using hR.threads_le
  · simpa [KState.set_thread] using hR.created
  · intro v b hb
    rcases getElem?_set_cases _ _ _ _ _ hb with ⟨rfl, rfl⟩ | ⟨-, hb⟩
    · rw [hst]; exact hR.st_eq _ k hk
    · exact hR.st_eq v b hb
  · intro v b hb
    rcases getElem?_set_cases _ _ _ _ _ hb with ⟨rfl, rfl⟩ | ⟨-, hb⟩
    · rw [hpc]; exact hR.mutex _ k hk
    · exact hR.mutex v b hb
  · intro h hh
    simpa [KState.set_thread] using hR.holder h hh

theorem running_request_stop (p : Params) (s : KState) (w : Nat) (hR : Running p s) :
    Running p (request_stop s w) := by
  unfold request_stop
  cases hk : s.kthreads[w]? with
  | none => exact hR
  | some k => exact running_set_flag p s w k _ hR hk rfl rfl

theorem running_deliver_signal (p : Params) (s : KState) (w : Nat) (hR : Running p s) :
    Running p (deliver_signal s w) := by
  unfold deliver_signal
  cases hk : s.kthreads[w]? with
  | none => exact hR
  | some k => exact running_set_flag p s w k _ hR hk rfl rfl

theorem running_apply_event (p : Params) (s : KState) (e : Event) (hR : Running p s) :
    ∃ s1, apply_event p s e = .ok s1 ∧ Running p s1 := by
  cases e with
  | step w now cpu => exact running_worker_step p s w now cpu hR
  | signal w => exact ⟨_, rfl, running_deliver_signal p s w hR⟩
  | stop w => exact ⟨_, rfl, running_request_stop p s w hR⟩

/-- No schedule makes the running module fault, and every state it reaches
satisfies `Running`. -/
theorem running_run (p : Params) (evs : List Event) : ∀ s, Running p s →
    ∃ s1, run p s evs = .ok s1 ∧ Running p s1 := by
  induction evs with
  | nil => intro s hR; exact ⟨s, rfl, hR⟩
  | cons e es ih =>
    intro s hR
    obtain ⟨s1, h1, hR1⟩ := running_apply_event p s e hR
    obtain ⟨s2, h2, hR2⟩ := ih s1 hR1
    exact ⟨s2, by simp [run, h1, Outcome.bind, h2], hR2⟩

/-! ### Startup -/

/-- The creation loop, started at index `i` with `n` rounds left on a live array
that has a record for each round: it does not fault, it creates the threads
`i .. c - 1` where `c` is the first index at which `kthread_run` fails (or
`i + n` when none fails), and it writes the records `i .. c` only. -/
theorem spawn_loop_spec (env : Env) (n : Nat) : ∀ (i : Nat) (s : KState) (ws : List worker_stats),
    s.wstats = .live ws → i + n ≤ ws.length → s.kthreads.length = i → s.created_threads = i →
    ∃ s1 ws1 c, spawn_loop env s i n = .ok s1 ∧ s1.wstats = .live ws1 ∧
      ws1.length = ws.length ∧ i ≤ c ∧ c ≤ i + n ∧
      s1.kthreads = s.kthreads ++ (List.range' i (c - i)).map fresh_worker ∧
      s1.created_threads = c ∧
      s1.calls = s.calls ++ (List.range' i (min (c + 1) (i + n) - i)).map Call.kthread_run ∧
      (∀ m, i ≤ m → m < c → env.kthread_run_ok m = true) ∧
      (c < i + n → env.kthread_run_ok c = false) ∧
      (∀ m, m < i ∨ c < m ∨ (c = i + n ∧ c ≤ m) → ws1[m]? = ws[m]?) ∧
      (∀ m, i ≤ m → m < c →
        ws1[m]? = (ws[m]?).map fun st => { init_stats st m with task := some m }) ∧
      (c < i + n → ws1[c]? = (ws[c]?).map fun st => { init_stats st c with task := none }) ∧
      s1.shared_counters = s.shared_counters ∧ s1.global_lock = s.global_lock ∧
      s1.dbg_dir = s.dbg_dir ∧ s1.dbg_stats_file = s.dbg_stats_file ∧ s1.held = s.held := by
  induction n with
  | zero =>
    intro i s ws hws _ _ hc
    refine ⟨s, ws, i, rfl, hws, rfl, le_rfl, le_rfl, by simp, hc, by simp, ?_, ?_, ?_, ?_, ?_,
      rfl, rfl, rfl, rfl, rfl⟩
    · intro m h1 h2; omega
    · intro h; omega
    · intro m _; rfl
    · intro m h1 h2; omega
    · intro h; omega
  | succ n ih =>
    intro i s ws hws hlen hkt hct
    have hi : i < ws.length := by omega
    cases hok : env.kthread_run_ok i with
    | false =>
      refine ⟨{ s with calls := s.calls ++ [Call.kthread_run i]
                       wstats := .live (ws.set i { init_stats ws[i] i with task := none }) },
        ws.set i { init_stats ws[i] i with task := none }, i, ?_, rfl, by simp,
        le_rfl, by omega, by simp, hct, ?_, ?_, ?_, ?_, ?_, ?_, rfl, rfl, rfl, rfl, rfl⟩
      · simp [spawn_loop, hws, Ptr.deref, Outcome.bind, List.getElem?_eq_getElem hi, hok]
      · have : min (i + 1) (i + (n + 1)) - i = 1 := by omega
        simp [this]
      · intro m h1 h2; omega
      · intro _; exact hok
      · intro m hm
        have hne : i ≠ m := by omega
        simp [List.getElem?_set, hne]
      · intro m h1 h2; omega
      · intro _
        simp [List.getElem?_set, hi, List.getElem?_eq_getElem hi]
    | true =>
      obtain ⟨s1, ws1, c, h1, h2, h3, h4, h5, h6, h7, h8, h9, h10, h11, h12, h13, h14, h15, h16,
          h17, h18⟩ :=
        ih (i + 1)
          { s with calls := s.calls ++ [Call.kthread_run i]
                   wstats := .live (ws.set i { init_stats ws[i] i with task := some s.kthreads.length })
                   kthreads := s.kthreads ++ [fresh_worker i]
                   created_threads := s.created_threads + 1 }
          (ws.set i { init_stats ws[i] i with task := some s.kthreads.length })
          rfl (by simp; omega) (by simp [hkt]) (by simp [hct])
      refine ⟨s1, ws1, c, ?_, h2, by simpa using h3, by omega, by omega, ?_, h7, ?_, ?_, ?_, ?_,
        ?_, ?_, h14, h15, h16, h17, h18⟩
      · simp only [spawn_loop, hws, Ptr.deref, Outcome.bind, List.getElem?_eq_getElem hi, hok,
          if_true]
        exact h1
      · rw [h6]
        have : c - i = (c - (i + 1)) + 1 := by omega
        rw [this, List.range'_succ]
        simp
      · rw [h8]
        have : min (c + 1) (i + (n + 1)) - i = (min (c + 1) (i + 1 + n) - (i + 1)) + 1 := by omega
        rw [this, List.range'_succ]
        simp
      · intro m hm1 hm2
        rcases Nat.eq_or_lt_of_le hm1 with rfl | hlt
        · exact hok
        · exact h9 m hlt hm2
      · intro hc; exact h10 (by omega)
      · intro m hm
        rw [h11 m (by omega)]
        have hne : i ≠ m := by omega
        simp [List.getElem?_set, hne]
      · intro m hm1 hm2
        rcases Nat.eq_or_lt_of_le hm1 with rfl | hlt
        · rw [h11 i (Or.inl (Nat.lt_succ_self i))]
          simp [List.getElem?_set, hi, List.getElem?_eq_getElem hi, hkt]
        · rw [h12 m hlt hm2]
          have hne : i ≠ m := by omega
          simp [List.getElem?_set, hne]
      · intro hc
        rw [h13 (by omega)]
        have hne : i ≠ c := by omega
        simp [List.getElem?_set, hne]

theorem cleanup_all_no_threads (p : Params) (drain : Nat → List Event) (s : KState)
    (ws : List worker_stats) (cs : List Nat) (hc : s.created_threads = 0)
    (hws : s.wstats = .live ws) (hcs : s.shared_counters = .live cs) :
    cleanup_all p drain s =
      .ok { s with dbg_dir := false, dbg_stats_file := s.dbg_stats_file && !s.dbg_dir,
                   shared_counters := .null, wstats := .null,
                   held := (((if s.dbg_dir then debugfs_remove_recursive s.held
                              else s.held).erase .counters_mem).erase .wstats_mem) } := by
  obtain ⟨wsP, csP, d1, d2, ct, gl, kt, cl, hd⟩ := s
  simp only at hc hws hcs
  subst hc hws hcs
  cases d1 <;>
    simp [cleanup_all, stop_loop, kfree, kfree_shared_counters, kfree_wstats, Outcome.bind]

theorem create_debugfs_fields (env : Env) (s : KState) :
    (create_debugfs env s).wstats = s.wstats ∧
    (create_debugfs env s).shared_counters = s.shared_counters ∧
    (create_debugfs env s).kthreads = s.kthreads ∧
    (create_debugfs env s).calls = s.calls ∧
    (create_debugfs env s).created_threads = s.created_threads ∧
    (create_debugfs env s).global_lock = s.global_lock := by
  unfold create_debugfs
  split <;> [split; skip] <;> exact ⟨rfl, rfl, rfl, rfl, rfl, rfl⟩

theorem create_debugfs_allocated (env : Env) (p : Params) :
    (create_debugfs env (allocated p)).dbg_dir = (env.debugfs_dir_ok && env.debugfs_file_ok) ∧
    (create_debugfs env (allocated p)).dbg_stats_file =
      (env.debugfs_dir_ok && env.debugfs_file_ok) ∧
    (create_debugfs env (allocated p)).held =
      [Resource.wstats_mem, Resource.counters_mem] ++
        (if (env.debugfs_dir_ok && env.debugfs_file_ok) = true
          then [Resource.debugfs_dir, Resource.debugfs_file] else []) := by
  unfold create_debugfs
  cases env.debugfs_dir_ok <;> cases env.debugfs_file_ok <;> exact ⟨rfl, rfl, rfl⟩

/-- Startup with `threads > 0` and both allocations granted: the creation loop
runs without fault and creates the threads `0 .. c - 1`, where `c` is the first
index whose creation fails (`threads` when none fails); startup returns 0 when
`c > 0` and `-ENOMEM`, after `cleanup_all`, when `c = 0`. -/
theorem init_outcome (p : Params) (env : Env) (hN : 0 < p.threads)
    (h1 : env.alloc_wstats_ok = true) (h2 : env.alloc_counters_ok = true) :
    ∃ s4 ws1 c, s4.wstats = .live ws1 ∧ ws1.length = p.threads.toNat ∧ c ≤ p.threads.toNat ∧
      s4.kthreads = (List.range' 0 c).map fresh_worker ∧ s4.created_threads = c ∧
      s4.calls = (List.range' 0 (min (c + 1) p.threads.toNat)).map Call.kthread_run ∧
      (∀ m, m < c → env.kthread_run_ok m = true) ∧
      (c < p.threads.toNat → env.kthread_run_ok c = false) ∧
      (∀ m, c < m → m < p.threads.toNat → ws1[m]? = some zeroed_stats) ∧
      (∀ m, m < c → ws1[m]? = some { init_stats zeroed_stats m with task := some m }) ∧
      (c < p.threads.toNat → ws1[c]? = some { init_stats zeroed_stats c with task := none }) ∧
      s4.shared_counters = .live (List.replicate (max 1 p.work_size).toNat 0) ∧
      s4.global_lock = none ∧
      s4.dbg_dir = (env.debugfs_dir_ok && env.debugfs_file_ok) ∧
      s4.dbg_stats_file = (env.debugfs_dir_ok && env.debugfs_file_ok) ∧
      (c = 0 → tsp_kbench_init p env boot =
        .ok (-ENOMEM, { s4 with dbg_dir := false, dbg_stats_file := false,
                                shared_counters := .null, wstats := .null, held := [] })) ∧
      (0 < c → tsp_kbench_init p env boot = .ok (0, s4)) ∧
      s4.held = [Resource.wstats_mem, Resource.counters_mem] ++
        (if (env.debugfs_dir_ok && env.debugfs_file_ok) = true
          then [Resource.debugfs_dir, Resource.debugfs_file] else []) ∧
      spawn_loop env (create_debugfs env (allocated p)) 0 p.threads.toNat = .ok s4 := by
  have hN1 : ¬ p.threads ≤ 0 := by omega
  obtain ⟨f1, f2, f3, f4, f5, f6⟩ := create_debugfs_fields env (allocated p)
  obtain ⟨g1, g2, g3⟩ := create_debugfs_allocated env p
  obtain ⟨s4, ws1, c, e1, e2, e3, -, e5, e6, e7, e8, e9, e10, e11, e12, e13, e14, e15, e16, e17,
      e18⟩ :=
    spawn_loop_spec env p.threads.toNat 0 (create_debugfs env (allocated p))
      (List.replicate p.threads.toNat zeroed_stats) (by rw [f1]; rfl) (by simp)
      (by rw [f3]; rfl) (by rw [f5]; rfl)
  have hrep : ∀ m, m < p.threads.toNat →
      (List.replicate p.threads.toNat zeroed_stats)[m]? = some zeroed_stats := by
    intro m hm
    simp [List.getElem?_replicate, hm]
  have e3l : ws1.length = p.threads.toNat := by simpa using e3
  have e5l : c ≤ p.threads.toNat := by simpa using e5
  have hinit : tsp_kbench_init p env boot =
      (spawn_loop env (create_debugfs env (allocated p)) 0 p.threads.toNat).bind fun s4 =>
        if s4.created_threads = 0 then
          (cleanup_all p (fun _ => []) s4).bind fun s5 => .ok (-ENOMEM, s5)
        else .ok (0, s4) := by
    simp only [tsp_kbench_init, hN1, if_false, h1, h2, Bool.true_eq_false]
    rfl
  have hheld : s4.held = [Resource.wstats_mem, Resource.counters_mem] ++
      (if (env.debugfs_dir_ok && env.debugfs_file_ok) = true
        then [Resource.debugfs_dir, Resource.debugfs_file] else []) := by rw [e18, g3]
  have hdd : s4.dbg_dir = (env.debugfs_dir_ok && env.debugfs_file_ok) := by rw [e16, g1]
  have hdf : s4.dbg_stats_file = (env.debugfs_dir_ok && env.debugfs_file_ok) := by rw [e17, g2]
  have hsc : s4.shared_counters = .live (List.replicate (max 1 p.work_size).toNat 0) := by
    rw [e14, f2]; rfl
  refine ⟨s4, ws1, c, e2, e3l, e5l, ?_, e7, ?_, ?_, ?_, ?_, ?_, ?_, hsc, ?_, hdd, hdf, ?_, ?_,
    hheld, e1⟩
  · rw [e6, f3]; rfl
  · rw [e8, f4]; simp [allocated, boot]
  · intro m hm; exact e9 m (Nat.zero_le m) hm
  · intro hc; exact e10 (by simpa using hc)
  · intro m hm1 hm2
    rw [e11 m (Or.inr (Or.inl hm1)), hrep m hm2]
  · intro m hm
    rw [e12 m (Nat.zero_le m) hm, hrep m (by omega)]
    rfl
  · intro hc
    rw [e13 (by simpa using hc), hrep c hc]
    rfl
  · rw [e15, f6]; rfl
  · intro hc0
    subst hc0
    have hcu := cleanup_all_no_threads p (fun _ => []) s4 ws1 _ e7 e2 hsc
    rw [hinit, e1]
    simp only [Outcome.bind, e7, if_true, hcu]
    congr 2
    rw [hheld, hdd, hdf]
    cases env.debugfs_dir_ok <;> cases env.debugfs_file_ok <;> rfl
  · intro hc0
    have hne : s4.created_threads ≠ 0 := by rw [e7]; omega
    rw [hinit, e1]
    simp only [Outcome.bind, hne, if_false]

theorem range_zero_getElem (c w a : Nat) (ha : (List.range' 0 c)[w]? = some a) :
    a = w ∧ w < c := by
  obtain ⟨h, e⟩ := List.getElem?_eq_some.mp ha
  simp at e h
  omega

/-- A startup that returns 0 had `threads > 0` and both allocations granted. -/
theorem init_zero_granted (p : Params) (env : Env) (s : KState)
    (h : tsp_kbench_init p env boot = .ok (0, s)) :
    ¬ p.threads ≤ 0 ∧ env.alloc_wstats_ok = true ∧ env.alloc_counters_ok = true := by
  by_cases hN : p.threads ≤ 0
  · simp [tsp_kbench_init, hN, EINVAL] at h
  · cases h1 : env.alloc_wstats_ok with
    | false => simp [tsp_kbench_init, hN, h1, ENOMEM] at h
    | true =>
      cases h2 : env.alloc_counters_ok with
      | false => simp [tsp_kbench_init, hN, h1, h2, ENOMEM, kfree, kfree_wstats, Outcome.bind] at h
      | true => exact ⟨hN, rfl, rfl⟩

/-- C8: startup never faults; it reports failure exactly when `threads <= 0`,
or an allocation is refused, or the first thread cannot be created (so that no
worker exists); with `threads <= 0` it returns `-EINVAL` and leaves the module
as it was loaded (nothing allocated, no thread, no debugfs entry); whenever it
fails, everything obtained from the kernel has been given back (`held` is
empty: each block went through `kfree`, each debugfs entry through
`debugfs_remove_recursive`), no pointer is live and no thread is left;
otherwise it returns 0 with at least one thread created, holding both blocks. -/
theorem startup_failure_cases (p : Params) (env : Env) :
    ∃ ret s, tsp_kbench_init p env boot = .ok (ret, s) ∧
      (ret ≠ 0 ↔ (p.threads ≤ 0 ∨ env.alloc_wstats_ok = false ∨
        env.alloc_counters_ok = false ∨ env.kthread_run_ok 0 = false)) ∧
      (p.threads ≤ 0 → ret = -EINVAL ∧ s = boot) ∧
      (ret ≠ 0 → (∀ ws, s.wstats ≠ .live ws) ∧ (∀ cs, s.shared_counters ≠ .live cs) ∧
        s.dbg_dir = false ∧ s.dbg_stats_file = false ∧ s.kthreads = [] ∧ s.held = []) ∧
      (ret = 0 → 0 < s.created_threads ∧ s.kthreads.length = s.created_threads ∧
        s.held = [Resource.wstats_mem, Resource.counters_mem] ++
          (if (env.debugfs_dir_ok && env.debugfs_file_ok) = true
            then [Resource.debugfs_dir, Resource.debugfs_file] else [])) := by
  by_cases hN : p.threads ≤ 0
  · refine ⟨-EINVAL, boot, by simp [tsp_kbench_init, hN], ?_, fun _ => ⟨rfl, rfl⟩, ?_, ?_⟩
    · simp [hN, EINVAL]
    · intro _; simp [boot]
    · intro h; simp [EINVAL] at h
  · cases h1 : env.alloc_wstats_ok with
    | false =>
      refine ⟨-ENOMEM, boot, by simp [tsp_kbench_init, hN, h1, boot], ?_,
        fun h => absurd h hN, ?_, ?_⟩
      · simp [ENOMEM]
      · intro _; simp [boot]
      · intro h; simp [ENOMEM] at h
    | true =>
      cases h2 : env.alloc_counters_ok with
      | false =>
        refine ⟨-ENOMEM, { boot with wstats := .freed, shared_counters := .null },
          by simp [tsp_kbench_init, hN, h1, h2, kfree, kfree_wstats, Outcome.bind, boot], ?_,
          fun h => absurd h hN, ?_, ?_⟩
        · simp [ENOMEM]
        · intro _; simp [boot]
        · intro h; simp [ENOMEM] at h
      | true =>
        obtain ⟨s4, ws1, c, e1, e2, e3, e4, e5, e6, e7, e8, -, -, -, -, -, -, -, e16, e17, e18,
            -⟩ := init_outcome p env (by omega) h1 h2
        rcases Nat.eq_zero_or_pos c with hc | hc
        · refine ⟨_, _, e16 hc, ?_, fun h => absurd h hN, ?_, ?_⟩
          · have : env.kthread_run_ok 0 = false := by
              have := e8 (by omega)
              rwa [hc] at this
            simp [ENOMEM, this]
          · intro _
            refine ⟨by simp, by simp, rfl, rfl, ?_, rfl⟩
            show s4.kthreads = []
            rw [e4, hc]; rfl
          · intro h; simp [ENOMEM] at h
        · refine ⟨0, s4, e17 hc, ?_, fun h => absurd h hN, fun h => absurd rfl h, ?_⟩
          · simp [hN, e7 0 hc]
          · intro _
            rw [e5, e4]
            exact ⟨hc, by simp, e18⟩

/-- C8, with `threads = 0` (scenario B): startup returns `-EINVAL` and the
module is left as it was loaded.  With `threads = 2` and the creation of the
first worker refused: at the test of line 243 the module holds both blocks and
both debugfs entries, and startup returns `-ENOMEM` holding nothing. -/
theorem startup_failure_cases_witness :
    tsp_kbench_init ⟨0, 100, 8, false⟩ env_all_ok boot = .ok (-EINVAL, boot) ∧
    (at_thread_check ⟨2, 1, 1, false⟩ (env_fail_at 0)).held =
      [Resource.wstats_mem, Resource.counters_mem, Resource.debugfs_dir,
        Resource.debugfs_file] ∧
    tsp_kbench_init ⟨2, 1, 1, false⟩ (env_fail_at 0) boot =
      .ok (-ENOMEM, started ⟨2, 1, 1, false⟩ (env_fail_at 0)) ∧
    (started ⟨2, 1, 1, false⟩ (env_fail_at 0)).held = [] := by
  obtain ⟨ret, s, h, -, h3, -⟩ := startup_failure_cases ⟨0, 100, 8, false⟩ env_all_ok
  obtain ⟨r1, r2⟩ := h3 (by decide)
  rw [h, r1, r2]
  exact ⟨rfl, rfl, rfl, rfl⟩

/-- A successful startup leaves the module in a state satisfying `Running`. -/
theorem running_after_init (p : Params) (env : Env) (s : KState)
    (h : tsp_kbench_init p env boot = .ok (0, s)) : Running p s := by
  obtain ⟨hN, h1, h2⟩ := init_zero_granted p env s h
  obtain ⟨s4, ws1, c, e1, e2, e3, e4, e5, -, -, -, -, -, -, e12, e13, -, -, e16, e17, -, -⟩ :=
    init_outcome p env (by omega) h1 h2
  rcases Nat.eq_zero_or_pos c with hc | hc
  · have := e16 hc
    rw [h] at this
    simp [ENOMEM] at this
  · have h4 := e17 hc
    rw [h] at h4
    cases h4
    have hget : ∀ (w : Nat) (k : Worker), s.kthreads[w]? = some k → k = fresh_worker w := by
      intro w k hk
      rw [e4] at hk
      simp only [List.getElem?_map, Option.map_eq_some'] at hk
      obtain ⟨a, ha, rfl⟩ := hk
      exact congrArg fresh_worker (range_zero_getElem c w a ha).1
    constructor
    · exact ⟨ws1, e1, e2⟩
    · exact ⟨_, e12, by simp⟩
    · rw [e4]; simpa using e3
    · rw [e5, e4]; simp
    · intro w k hk; rw [hget w k hk]; rfl
    · intro w k hk
      rw [hget w k hk, e13]
      simp [fresh_worker, PC.in_cs]
    · intro h hh
      rw [e13] at hh
      exact absurd hh (by simp)

/-! ### Mutual exclusion -/

theorem Step.shared {p : Params} {w now : Nat} {cpu : Int} {k k1 : Worker}
    {lock lock1 : Option Nat} {ws ws1 : List worker_stats} {cs cs1 : List Nat}
    (h : Step p w now cpu k lock ws cs k1 lock1 ws1 cs1) :
    (cs1 = cs ∨ (k.pc = .cs ∧ lock1 = lock)) ∧ (ws1 = ws ∨ k.pc = .stats) := by
  cases h <;> simp_all

theorem request_stop_shared (s : KState) (w : Nat) :
    (request_stop s w).shared_counters = s.shared_counters ∧
      (request_stop s w).wstats = s.wstats := by
  unfold request_stop; split <;> exact ⟨rfl, rfl⟩

theorem deliver_signal_shared (s : KState) (w : Nat) :
    (deliver_signal s w).shared_counters = s.shared_counters ∧
      (deliver_signal s w).wstats = s.wstats := by
  unfold deliver_signal; split <;> exact ⟨rfl, rfl⟩

/-- In a state satisfying `Running`, a step that changes `shared_counters` is a
step of the thread that holds `global_lock`, taken at the inner loop, and it
keeps the lock; a step of a thread inside the bracket leaves `wstats` alone. -/
theorem running_event_shared (p : Params) (s s1 : KState) (e : Event) (hR : Running p s)
    (he : apply_event p s e = .ok s1) :
    (s1.shared_counters ≠ s.shared_counters → ∃ w now cpu k, e = .step w now cpu ∧
      s.kthreads[w]? = some k ∧ k.pc = .cs ∧ s.global_lock = some w ∧ s1.global_lock = some w) ∧
    (∀ w now cpu k, e = .step w now cpu → s.kthreads[w]? = some k → k.pc.in_cs = true →
      s1.wstats = s.wstats) := by
  cases e with
  | signal w =>
    cases he
    exact ⟨fun h => absurd (deliver_signal_shared s w).1 h, fun _ _ _ _ h => by cases h⟩
  | stop w =>
    cases he
    exact ⟨fun h => absurd (request_stop_shared s w).1 h, fun _ _ _ _ h => by cases h⟩
  | step w now cpu =>
    cases hk : s.kthreads[w]? with
    | none =>
      have : apply_event p s (.step w now cpu) = .ok s := worker_step_none p s w now cpu hk
      rw [this] at he
      cases he
      refine ⟨fun h => absurd rfl h, ?_⟩
      intro w1 _ _ k1 h1 h2
      cases h1
      rw [hk] at h2
      cases h2
    | some k =>
      obtain ⟨ws, hws, hwl⟩ := hR.ws_live
      obtain ⟨cs, hcs, hcl⟩ := hR.cs_live
      have hwlt : w < s.kthreads.length := by
        rcases Nat.lt_or_ge w s.kthreads.length with h | h
        · exact h
        · rw [List.getElem?_eq_none h] at hk; exact absurd hk (by simp)
      have hst : k.st < ws.length := by
        rw [hR.st_eq w k hk, hwl]; exact lt_of_lt_of_le hwlt hR.threads_le
      obtain ⟨k1, lock1, ws1, cs1, hstep, hres⟩ :=
        worker_step_sound p s w now cpu k ws cs hk hws hcs hst hcl
      have he1 : worker_fn p s w now cpu = .ok s1 := he
      rw [hres] at he1
      cases he1
      obtain ⟨c1, c2⟩ := hstep.shared
      constructor
      · intro hne
        rcases c1 with c1 | ⟨c1, c3⟩
        · exact absurd (by rw [hcs, c1]) hne
        · have hin : k.pc.in_cs = true := by rw [c1]; rfl
          have hl := (hR.mutex w k hk).mp hin
          exact ⟨w, now, cpu, k, rfl, hk, c1, hl, by show lock1 = some w; rw [c3, hl]⟩
      · intro w1 _ _ k2 h1 h2 h3
        cases h1
        rw [hk] at h2
        cases h2
        rcases c2 with c2 | c2
        · show Ptr.live ws1 = s.wstats
          rw [hws, c2]
        · rw [c2] at h3
          exact absurd h3 (by simp [PC.in_cs])

/-- C5: in every state the module reaches after a successful startup, under any
schedule of thread steps, signals and stop requests, at most one thread is
between `spin_lock(&global_lock)` and `spin_unlock`; every step that changes
`shared_counters` is taken by the holder of the lock at the inner loop and
keeps the lock; and no step of a thread inside the bracket writes `wstats`. -/
theorem critical_section_exclusive (p : Params) (env : Env) (s0 : KState) (evs : List Event)
    (h0 : tsp_kbench_init p env boot = .ok (0, s0)) :
    ∃ s, run p s0 evs = .ok s ∧
      (∀ (w1 w2 : Nat) (k1 k2 : Worker), s.kthreads[w1]? = some k1 → s.kthreads[w2]? = some k2 →
        k1.pc.in_cs = true → k2.pc.in_cs = true → w1 = w2) ∧
      (∀ (w : Nat) (k : Worker), s.kthreads[w]? = some k → (k.pc.in_cs = true ↔ s.global_lock = some w)) ∧
      (∀ e, ∃ s1, apply_event p s e = .ok s1 ∧
        (s1.shared_counters ≠ s.shared_counters → ∃ w now cpu k, e = .step w now cpu ∧
          s.kthreads[w]? = some k ∧ k.pc = .cs ∧ s.global_lock = some w ∧
          s1.global_lock = some w) ∧
        (∀ w now cpu k, e = .step w now cpu → s.kthreads[w]? = some k → k.pc.in_cs = true →
          s1.wstats = s.wstats)) := by
  obtain ⟨s, hs, hR⟩ := running_run p evs s0 (running_after_init p env s0 h0)
  refine ⟨s, hs, ?_, hR.mutex, ?_⟩
  · intro w1 w2 k1 k2 h1 h2 c1 c2
    have a1 := (hR.mutex w1 k1 h1).mp c1
    have a2 := (hR.mutex w2 k2 h2).mp c2
    rw [a1] at a2
    exact Option.some.inj a2
  · intro e
    obtain ⟨s1, h1, -⟩ := running_apply_event p s e hR
    exact ⟨s1, h1, running_event_shared p s s1 e hR h1⟩

/-- C5, for two threads that both reach `spin_lock`: thread 0 takes the lock,
thread 1 spins. -/
theorem critical_section_exclusive_witness :
    ∃ s, run ⟨2, 1, 1, false⟩ (started ⟨2, 1, 1, false⟩ env_all_ok)
        [.step 0 0 0, .step 1 0 0, .step 0 1 0, .step 1 1 0, .step 0 2 0, .step 1 2 0] = .ok s ∧
      (∀ (w1 w2 : Nat) (k1 k2 : Worker), s.kthreads[w1]? = some k1 → s.kthreads[w2]? = some k2 →
        k1.pc.in_cs = true → k2.pc.in_cs = true → w1 = w2) ∧
      (∀ (w : Nat) (k : Worker), s.kthreads[w]? = some k → (k.pc.in_cs = true ↔ s.global_lock = some w)) ∧
      (∀ e, ∃ s1, apply_event ⟨2, 1, 1, false⟩ s e = .ok s1 ∧
        (s1.shared_counters ≠ s.shared_counters → ∃ w now cpu k, e = .step w now cpu ∧
          s.kthreads[w]? = some k ∧ k.pc = .cs ∧ s.global_lock = some w ∧
          s1.global_lock = some w) ∧
        (∀ w now cpu k, e = .step w now cpu → s.kthreads[w]? = some k → k.pc.in_cs = true →
          s1.wstats = s.wstats)) :=
  critical_section_exclusive ⟨2, 1, 1, false⟩ env_all_ok _ _ rfl

/-! ### Counting acquisitions and increments -/

theorem sum_map_set (l : List Worker) (f : Worker → Nat) (w : Nat) (k k1 : Worker)
    (h : l[w]? = some k) : ((l.set w k1).map f).sum + f k = (l.map f).sum + f k1 := by
  induction l generalizing w with
  | nil => simp at h
  | cons a l ih =>
    cases w with
    | zero =>
      simp at h
      subst h
      simp
      omega
    | succ w =>
      simp at h
      have := ih w h
      simp only [List.set_cons_succ, List.map_cons, List.sum_cons]
      omega

theorem Step.counting {p : Params} {w now : Nat} {cpu : Int} {k k1 : Worker}
    {lock lock1 : Option Nat} {ws ws1 : List worker_stats} {cs cs1 : List Nat}
    (h : Step p w now cpu k lock ws cs k1 lock1 ws1 cs1) (hl : local_ok p k) :
    local_ok p k1 ∧
    ((ws1 = ws ∧ completed k1 = completed k) ∨
      (∃ st, ws[k.st]? = some st ∧ ws1 = ws.set k.st (stats_update st k.wait_ns k.hold_ns cpu) ∧
        completed k1 = completed k + 1)) ∧
    ((cs1 = cs ∧ ∀ jj : Nat, (jj : Int) < p.work_size → touched k1 jj = touched k jj) ∨
      (∃ c, cs[k.j]? = some c ∧ (k.j : Int) < p.work_size ∧ cs1 = cs.set k.j ((c + 1) % U64_MOD) ∧
        ∀ jj : Nat, touched k1 jj = touched k jj + if jj = k.j then 1 else 0)) := by
  obtain ⟨l1, l2, l3, l4⟩ := hl
  cases h
  case start hpc => simp_all [local_ok, touched, completed]
  case enter hpc hi hs => simp_all [local_ok, touched, completed]
  case leave hpc hc =>
    simp_all [local_ok, touched, completed]
    omega
  case acquire hpc => simp_all [local_ok, touched, completed]
  case spin hpc => simp_all [local_ok, touched, completed]
  case locked hpc => simp_all [local_ok, touched, completed]
  case cs_begin hpc => simp_all [local_ok, touched, completed]
  case incr c hpc hj hc =>
    refine ⟨?_, ?_, Or.inr ⟨c, hc, hj, rfl, ?_⟩⟩
    · simp_all [local_ok]
      omega
    · simp_all [completed]
    · intro jj
      simp only [touched, hpc]
      split <;> split <;> split <;> omega
  case cs_end hpc hj =>
    refine ⟨?_, ?_, Or.inl ⟨rfl, ?_⟩⟩
    · simp_all [local_ok]
    · simp_all [completed]
    · intro jj hjj
      simp only [touched, hpc]
      rw [hpc] at l4
      have : jj < k.j := by omega
      simp [this]
  case unlock hpc => simp_all [local_ok, touched, completed]
  case stats st hpc hst =>
    refine ⟨?_, Or.inr ⟨st, hst, rfl, ?_⟩, Or.inl ⟨rfl, ?_⟩⟩
    · simp_all [local_ok]
    · simp_all [completed]
    · intro jj _; simp_all [touched]
  case interrupted hpc hs => simp_all
  case next hpc hs =>
    simp_all [local_ok, touched, completed]
    omega
  case stopped hpc hs => simp_all
  case waiting hpc hs => simp_all [local_ok, touched, completed]
  case exited hpc => simp_all [local_ok]

theorem getElem?_lt_length {α : Type} (l : List α) (w : Nat) (a : α) (h : l[w]? = some a) :
    w < l.length := by
  rcases Nat.lt_or_ge w l.length with h1 | h1
  · exact h1
  · rw [List.getElem?_eq_none h1] at h; exact absurd h (by simp)

/-- A step of a thread keeps the bookkeeping invariant. -/
theorem counting_worker_step (p : Params) (s s1 : KState) (w now : Nat) (cpu : Int)
    (hC : Counting p s) (h1 : worker_fn p s w now cpu = .ok s1) : Counting p s1 := by
  have hR := hC.running
  obtain ⟨s2, h2, hR2⟩ := running_worker_step p s w now cpu hR
  rw [h1] at h2
  cases h2
  cases hk : s.kthreads[w]? with
  | none =>
    rw [worker_step_none p s w now cpu hk] at h1
    cases h1
    exact hC
  | some k =>
    obtain ⟨ws, hws, hwl⟩ := hR.ws_live
    obtain ⟨cs, hcs, hcl⟩ := hR.cs_live
    have hwlt : w < s.kthreads.length := getElem?_lt_length _ _ _ hk
    have hkst : k.st = w := hR.st_eq w k hk
    have hst : k.st < ws.length := by
      rw [hkst, hwl]; exact lt_of_lt_of_le hwlt hR.threads_le
    obtain ⟨k1, lock1, ws1, cs1, hstep, hres⟩ :=
      worker_step_sound p s w now cpu k ws cs hk hws hcs hst hcl
    rw [h1] at hres
    cases hres
    obtain ⟨c1, c2, c3⟩ := hstep.counting (hC.loc w k hk)
    refine ⟨hR2, ?_, ?_, ?_⟩
    · intro v b hb
      rcases getElem?_set_cases _ _ _ _ _ hb with ⟨rfl, rfl⟩ | ⟨-, hb⟩
      · exact c1
      · exact hC.loc v b hb
    · intro v b ws2 st hb hw2 hst2
      have hw3 : ws1 = ws2 := by
        have : Ptr.live ws1 = Ptr.live ws2 := hw2
        cases this; rfl
      subst hw3
      rcases getElem?_set_cases _ _ _ _ _ hb with ⟨rfl, rfl⟩ | ⟨hne, hb⟩
      · rcases c2 with ⟨rfl, e⟩ | ⟨st0, e0, rfl, e⟩
        · rw [e]; exact hC.acq _ k ws1 st hk hws hst2
        · rw [hkst] at hst2 e0
          rw [List.getElem?_set_self (by rw [← hkst]; exact hst)] at hst2
          cases hst2
          have := hC.acq _ k ws st0 hk hws e0
          simp only [stats_update]
          rw [this, e, Nat.mod_add_mod]
      · have hold : ws[v]? = some st := by
          rcases c2 with ⟨rfl, -⟩ | ⟨st0, -, rfl, -⟩
          · exact hst2
          · rw [hkst, List.getElem?_set_ne (fun e => hne e.symm)] at hst2
            exact hst2
        exact hC.acq v b ws st hb hws hold
    · intro cs2 jj hc2 hjj
      have hc3 : cs1 = cs2 := by
        have : Ptr.live cs1 = Ptr.live cs2 := hc2
        cases this; rfl
      subst hc3
      have hold := hC.cnt cs jj hcs hjj
      have hsum := sum_map_set s.kthreads (fun k => touched k jj) w k k1 hk
      show cs1[jj]? = some ((List.map (fun k => touched k jj) (s.kthreads.set w k1)).sum % U64_MOD)
      rcases c3 with ⟨rfl, e⟩ | ⟨c, e0, ej, rfl, e⟩
      · have := e jj hjj
        simp only [this] at hsum
        have heq : (List.map (fun k => touched k jj) (s.kthreads.set w k1)).sum =
            (List.map (fun k => touched k jj) s.kthreads).sum := by omega
        rw [heq]; exact hold
      · have := e jj
        simp only [this] at hsum
        by_cases hj : jj = k.j
        · subst hj
          simp only [if_true] at hsum
          have heq : (List.map (fun b => touched b k.j) (s.kthreads.set w k1)).sum =
              (List.map (fun b => touched b k.j) s.kthreads).sum + 1 := by omega
          rw [heq, List.getElem?_set_self (getElem?_lt_length _ _ _ e0)]
          rw [e0] at hold
          cases hold
          rw [Nat.mod_add_mod]
        · simp only [hj, if_false] at hsum
          have heq : (List.map (fun k => touched k jj) (s.kthreads.set w k1)).sum =
              (List.map (fun k => touched k jj) s.kthreads).sum := by omega
          rw [heq, List.getElem?_set_ne (fun e => hj e.symm)]
          exact hold

/-- A schedule is made of steps of threads only: no signal, no stop request. -/
theorem counting_run (p : Params) (evs : List Event)
    (hev : ∀ e ∈ evs, ∃ w now cpu, e = Event.step w now cpu) :
    ∀ s s1, Counting p s → run p s evs = .ok s1 → Counting p s1 := by
  induction evs with
  | nil => intro s s1 hC h; cases h; exact hC
  | cons e es ih =>
    intro s s1 hC h
    obtain ⟨w, now, cpu, rfl⟩ := hev e (List.mem_cons_self _ _)
    simp only [run, apply_event] at h
    cases h1 : worker_fn p s w now cpu with
    | fault f => rw [h1] at h; cases h
    | ok s2 =>
      rw [h1] at h
      exact ih (fun e he => hev e (List.mem_cons_of_mem _ he)) s2 s1
        (counting_worker_step p s s2 w now cpu hC h1) h

/-- What a successful startup leaves: `c >= 1` threads, all at the entry of
`worker_fn`; the records below `c` initialised and bound to their thread, the
record `c` (if any) initialised without thread, the records above `c` still
zeroed; the counters zero and the lock free. -/
theorem init_success (p : Params) (env : Env) (s : KState)
    (h : tsp_kbench_init p env boot = .ok (0, s)) :
    0 < p.threads ∧ ∃ ws1 c, 0 < c ∧ s.wstats = .live ws1 ∧ ws1.length = p.threads.toNat ∧
      c ≤ p.threads.toNat ∧
      s.kthreads = (List.range' 0 c).map fresh_worker ∧ s.created_threads = c ∧
      s.calls = (List.range' 0 (min (c + 1) p.threads.toNat)).map Call.kthread_run ∧
      (∀ m, m < c → env.kthread_run_ok m = true) ∧
      (c < p.threads.toNat → env.kthread_run_ok c = false) ∧
      (∀ m, c < m → m < p.threads.toNat → ws1[m]? = some zeroed_stats) ∧
      (∀ m, m < c → ws1[m]? = some { init_stats zeroed_stats m with task := some m }) ∧
      (c < p.threads.toNat → ws1[c]? = some { init_stats zeroed_stats c with task := none }) ∧
      s.shared_counters = .live (List.replicate (max 1 p.work_size).toNat 0) ∧
      s.global_lock = none := by
  obtain ⟨hN, h1, h2⟩ := init_zero_granted p env s h
  obtain ⟨s4, ws1, c, e1, e2, e3, e4, e5, e6, e7, e8, e9, e10, e11, e12, e13, -, -, e16, e17, -,
      -⟩ := init_outcome p env (by omega) h1 h2
  rcases Nat.eq_zero_or_pos c with hc | hc
  · have := e16 hc
    rw [h] at this
    simp [ENOMEM] at this
  · have h4 := e17 hc
    rw [h] at h4
    cases h4
    exact ⟨by omega, ws1, c, hc, e1, e2, e3, e4, e5, e6, e7, e8, e9, e10, e11, e12, e13⟩

theorem kthreads_fresh (c w : Nat) (k : Worker)
    (hk : ((List.range' 0 c).map fresh_worker)[w]? = some k) : k = fresh_worker w ∧ w < c := by
  simp only [List.getElem?_map, Option.map_eq_some'] at hk
  obtain ⟨a, ha, rfl⟩ := hk
  obtain ⟨r1, r2⟩ := range_zero_getElem c w a ha
  exact ⟨congrArg fresh_worker r1, r2⟩

theorem sum_map_const {α : Type} (l : List α) (f : α → Nat) (c : Nat)
    (h : ∀ x ∈ l, f x = c) : (l.map f).sum = l.length * c := by
  induction l with
  | nil => simp
  | cons a l ih =>
    simp only [List.map_cons, List.sum_cons, List.length_cons]
    rw [ih (fun x hx => h x (List.mem_cons_of_mem _ hx)), h a (List.mem_cons_self _ _)]
    ring

/-- The bookkeeping invariant holds after a successful startup. -/
theorem counting_after_init (p : Params) (env : Env) (s : KState)
    (h : tsp_kbench_init p env boot = .ok (0, s)) : Counting p s := by
  obtain ⟨-, ws1, c, hc, e1, e2, e3, e4, e5, -, -, -, -, e10, -, e12, -⟩ := init_success p env s h
  refine ⟨running_after_init p env s h, ?_, ?_, ?_⟩
  · intro w k hk
    rw [e4] at hk
    rw [(kthreads_fresh c w k hk).1]
    simp [local_ok, fresh_worker]
  · intro w k ws st hk hws hst
    rw [e4] at hk
    obtain ⟨r1, r2⟩ := kthreads_fresh c w k hk
    rw [e1] at hws
    cases hws
    rw [e10 w r2] at hst
    cases hst
    rw [r1]
    simp [completed, fresh_worker, init_stats]
  · intro cs jj hcs hjj
    rw [e12] at hcs
    cases hcs
    have hz : (s.kthreads.map fun k => touched k jj).sum = s.kthreads.length * 0 := by
      apply sum_map_const
      intro k hk
      rw [e4] at hk
      simp only [List.mem_map] at hk
      obtain ⟨a, -, rfl⟩ := hk
      simp [touched, fresh_worker]
    rw [hz]
    have hlt : jj < (max 1 p.work_size).toNat := by omega
    simp [List.getElem?_replicate, hlt]

/-- Once every thread of a full set has left its loop, with no signal and no
stop request delivered, every record holds `iterations` acquisitions and every
counter holds `threads * iterations` modulo `2 ^ 64`. -/
theorem all_done_counts (p : Params) (s : KState) (hC : Counting p s)
    (hW : 1 ≤ p.work_size) (hI : p.iterations < 2 ^ 64)
    (hlen : s.kthreads.length = p.threads.toNat)
    (hdone : ∀ (w : Nat) (k : Worker), s.kthreads[w]? = some k → k.pc = .wait_stop) :
    ∃ ws cs, s.wstats = .live ws ∧ s.shared_counters = .live cs ∧
      ws.length = p.threads.toNat ∧ cs.length = p.work_size.toNat ∧
      (∀ st ∈ ws, st.acquires = p.iterations) ∧
      (ws.map fun st => st.acquires).sum = p.threads.toNat * p.iterations ∧
      (∀ c ∈ cs, c = (p.threads.toNat * p.iterations) % U64_MOD) := by
  obtain ⟨ws, hws, hwl⟩ := hC.running.ws_live
  obtain ⟨cs, hcs, hcl⟩ := hC.running.cs_live
  have hki : ∀ (w : Nat) (k : Worker), s.kthreads[w]? = some k → k.i = p.iterations := by
    intro w k hk
    have := hC.loc w k hk
    simp only [local_ok, hdone w k hk] at this
    exact this.2.2.2
  have hacq : ∀ st ∈ ws, st.acquires = p.iterations := by
    intro st hst
    obtain ⟨w, hw, rfl⟩ := List.getElem_of_mem hst
    have hwk : w < s.kthreads.length := by rw [hlen, ← hwl]; exact hw
    have hk := List.getElem?_eq_getElem hwk
    rw [hC.acq w _ ws _ hk hws (List.getElem?_eq_getElem hw)]
    simp only [completed, hdone w _ hk, hki w _ hk]
    simp only [U64_MOD, if_neg (show ¬ PC.wait_stop = PC.after_stats by decide), Nat.add_zero]
    exact Nat.mod_eq_of_lt hI
  refine ⟨ws, cs, hws, hcs, hwl, ?_, hacq, ?_, ?_⟩
  · rw [hcl]; congr 1; omega
  · rw [sum_map_const ws _ p.iterations hacq, hwl]
  · intro c hc
    obtain ⟨jj, hjj, rfl⟩ := List.getElem_of_mem hc
    have hj2 : (jj : Int) < p.work_size := by rw [hcl] at hjj; omega
    have := hC.cnt cs jj hcs hj2
    rw [List.getElem?_eq_getElem hjj] at this
    have hval := Option.some.inj this
    have hsum : (s.kthreads.map fun k => touched k jj).sum = s.kthreads.length * p.iterations := by
      apply sum_map_const
      intro k hk
      obtain ⟨w, hw, rfl⟩ := List.getElem_of_mem hk
      have hk2 := List.getElem?_eq_getElem hw
      simp [touched, hdone w _ hk2, hki w _ hk2]
    rw [← hlen, ← hsum]
    exact hval

/-! ### Progress -/

/-- A step of an existing thread in a state satisfying `Running`, with
everything it changes. -/
theorem running_step_full (p : Params) (s : KState) (w now : Nat) (cpu : Int) (k : Worker)
    (hR : Running p s) (hk : s.kthreads[w]? = some k) :
    ∃ ws cs k1 lock1 ws1 cs1, s.wstats = .live ws ∧ s.shared_counters = .live cs ∧
      Step p w now cpu k s.global_lock ws cs k1 lock1 ws1 cs1 ∧
      worker_fn p s w now cpu =
        .ok { s with kthreads := s.kthreads.set w k1, global_lock := lock1,
                     wstats := .live ws1, shared_counters := .live cs1 } ∧
      Running p { s with kthreads := s.kthreads.set w k1, global_lock := lock1,
                         wstats := .live ws1, shared_counters := .live cs1 } := by
  obtain ⟨ws, hws, hwl⟩ := hR.ws_live
  obtain ⟨cs, hcs, hcl⟩ := hR.cs_live
  have hwlt : w < s.kthreads.length := getElem?_lt_length _ _ _ hk
  have hst : k.st < ws.length := by
    rw [hR.st_eq w k hk, hwl]; exact lt_of_lt_of_le hwlt hR.threads_le
  obtain ⟨k1, lock1, ws1, cs1, hstep, hres⟩ :=
    worker_step_sound p s w now cpu k ws cs hk hws hcs hst hcl
  obtain ⟨s2, h2, hR2⟩ := running_worker_step p s w now cpu hR
  rw [hres] at h2
  cases h2
  exact ⟨ws, cs, k1, lock1, ws1, cs1, hws, hcs, hstep, hres, hR2⟩

theorem Step.cs_progress {p : Params} {w now : Nat} {cpu : Int} {k k1 : Worker}
    {lock lock1 : Option Nat} {ws ws1 : List worker_stats} {cs cs1 : List Nat}
    (h : Step p w now cpu k lock ws cs k1 lock1 ws1 cs1) (hin : k.pc.in_cs = true) :
    (k1.pc.in_cs = true ∧ cs_steps p k1 + 1 = cs_steps p k) ∨
      (k1.pc.in_cs = false ∧ lock1 = none) := by
  cases h <;> simp_all [PC.in_cs, cs_steps]
  omega

theorem Step.progress {p : Params} {w now : Nat} {cpu : Int} {k k1 : Worker}
    {lock lock1 : Option Nat} {ws ws1 : List worker_stats} {cs cs1 : List Nat}
    (h : Step p w now cpu k lock ws cs k1 lock1 ws1 cs1) (hfree : k.pc = .at_lock → lock = none)
    (hpos : steps_left p k ≠ 0) : steps_left p k1 + 1 = steps_left p k := by
  cases h
  case start hpc =>
    simp [steps_left, hpc, tail_steps]
    omega
  case enter hpc hi hs =>
    have e : p.iterations - k.i = (p.iterations - (k.i + 1)) + 1 := by omega
    simp only [steps_left, hpc, tail_steps, after_steps, hs, loop_len]
    by_cases hsig : k.sig_pending = true
    · simp [hsig, Nat.not_le.mpr hi]
    · by_cases hlast : p.iterations ≤ k.i + 1
      · have e0 : p.iterations - k.i = 1 := by omega
        simp [hsig, Nat.not_le.mpr hi, hlast, e0]
      · simp only [hsig, Nat.not_le.mpr hi, hlast, e, Nat.add_mul]
        simp
        omega
  case leave hpc hc =>
    have : k.should_stop = true ∨ p.iterations ≤ k.i := by
      by_cases hs : k.should_stop = true
      · exact Or.inl hs
      · right
        simp only [Bool.not_eq_true] at hs
        by_contra hlt
        exact hc ⟨by omega, hs⟩
    simp [steps_left, hpc, tail_steps, this]
  case acquire hpc =>
    simp [steps_left, hpc, after_steps]
    omega
  case spin h hpc => exact absurd (hfree hpc) (by simp)
  case locked hpc =>
    simp [steps_left, hpc, after_steps]
    omega
  case cs_begin hpc =>
    simp [steps_left, hpc, after_steps]
    omega
  case incr c hpc hj hc =>
    simp [steps_left, hpc, after_steps]
    omega
  case cs_end hpc hj =>
    have : p.work_size.toNat - k.j = 0 := by omega
    simp [steps_left, hpc, after_steps, this]
    omega
  case unlock hpc =>
    simp [steps_left, hpc, after_steps]
    omega
  case stats st hpc hst =>
    simp [steps_left, hpc, after_steps]
    omega
  case interrupted hpc hs => simp [steps_left, hpc, after_steps, hs]
  case next hpc hs =>
    simp [steps_left, hpc, after_steps, hs, tail_steps]
    omega
  case stopped hpc hs => simp [steps_left, hpc] at hpos
  case waiting hpc hs => simp [steps_left, hpc] at hpos
  case exited hpc => simp [steps_left, hpc] at hpos

theorem map_set_same {α β : Type} (l : List α) (f : α → β) (i : Nat) (a b : α)
    (h : l[i]? = some a) (hf : f b = f a) : (l.set i b).map f = l.map f := by
  rw [List.map_set, hf]
  exact set_self_of_getElem? _ _ _ (by simp [h])

theorem Step.kept {p : Params} {w now : Nat} {cpu : Int} {k k1 : Worker}
    {lock lock1 : Option Nat} {ws ws1 : List worker_stats} {cs cs1 : List Nat}
    (h : Step p w now cpu k lock ws cs k1 lock1 ws1 cs1) :
    ws1.map (fun st => st.task) = ws.map (fun st => st.task) ∧
    ws1.map (fun st => st.id) = ws.map (fun st => st.id) ∧
    ∀ m, m ≠ k.st → ws1[m]? = ws[m]? := by
  cases h
  case stats st hpc hst =>
    refine ⟨map_set_same _ _ _ _ _ hst rfl, map_set_same _ _ _ _ _ hst rfl, ?_⟩
    intro m hm
    exact List.getElem?_set_ne (fun e => hm e.symm)
  all_goals exact ⟨rfl, rfl, fun _ _ => rfl⟩

theorem Kept.refl (s : KState) : Kept s s :=
  ⟨rfl, rfl, rfl, rfl, rfl, rfl, fun ws ws1 h h1 => by
    rw [h] at h1; cases h1; exact ⟨rfl, rfl, fun _ _ => rfl⟩⟩

theorem Kept.trans {p : Params} {s s1 s2 : KState} (hR : Running p s1) (h : Kept s s1)
    (h1 : Kept s1 s2) : Kept s s2 := by
  obtain ⟨wm, hwm, -⟩ := hR.ws_live
  refine ⟨h1.created.trans h.created, h1.calls.trans h.calls, h1.nthreads.trans h.nthreads,
    h1.dbg_dir.trans h.dbg_dir, h1.dbg_file.trans h.dbg_file, h1.held.trans h.held, ?_⟩
  intro ws ws2 hw hw2
  obtain ⟨a1, a2, a3⟩ := h.records ws wm hw hwm
  obtain ⟨b1, b2, b3⟩ := h1.records wm ws2 hwm hw2
  refine ⟨b1.trans a1, b2.trans a2, fun m hm => ?_⟩
  rw [b3 m (by rw [h.nthreads]; exact hm), a3 m hm]

theorem kept_set_thread (s : KState) (w : Nat) (k : Worker) : Kept s (s.set_thread w k) :=
  ⟨rfl, rfl, by simp [KState.set_thread], rfl, rfl, rfl, fun ws ws1 h h1 => by
    have h2 : s.wstats = .live ws1 := h1
    rw [h] at h2; cases h2; exact ⟨rfl, rfl, fun _ _ => rfl⟩⟩

theorem kept_apply_event (p : Params) (s s1 : KState) (e : Event) (hR : Running p s)
    (he : apply_event p s e = .ok s1) : Kept s s1 := by
  cases e with
  | signal w =>
    cases he
    unfold deliver_signal
    split
    · exact Kept.refl s
    · exact kept_set_thread s w _
  | stop w =>
    cases he
    unfold request_stop
    split
    · exact Kept.refl s
    · exact kept_set_thread s w _
  | step w now cpu =>
    have he1 : worker_fn p s w now cpu = .ok s1 := he
    cases hk : s.kthreads[w]? with
    | none =>
      rw [worker_step_none p s w now cpu hk] at he1
      cases he1
      exact Kept.refl s
    | some k =>
      obtain ⟨ws, cs, k1, lock1, ws1, cs1, hws, hcs, hstep, hres, -⟩ :=
        running_step_full p s w now cpu k hR hk
      rw [hres] at he1
      cases he1
      obtain ⟨a1, a2, a3⟩ := hstep.kept
      refine ⟨rfl, rfl, by simp, rfl, rfl, rfl, ?_⟩
      intro ws0 ws2 h0 h2
      rw [hws] at h0
      cases h0
      have : Ptr.live ws1 = Ptr.live ws2 := h2
      cases this
      refine ⟨a1, a2, fun m hm => a3 m ?_⟩
      rw [hR.st_eq w k hk]
      have := getElem?_lt_length _ _ _ hk
      omega

/-- Every schedule keeps what `Kept` lists. -/
theorem kept_run (p : Params) (evs : List Event) : ∀ s s1, Running p s →
    run p s evs = .ok s1 → Kept s s1 := by
  induction evs with
  | nil => intro s s1 _ h; cases h; exact Kept.refl s
  | cons e es ih =>
    intro s s1 hR h
    obtain ⟨s2, h2, hR2⟩ := running_apply_event p s e hR
    simp only [run, h2, Outcome.bind] at h
    exact Kept.trans hR2 (kept_apply_event p s s2 e hR h2) (ih s2 s1 hR2 h)

theorem stepped_thread (s : KState) (w : Nat) (k1 : Worker) (lock1 : Option Nat)
    (ws1 : List worker_stats) (cs1 : List Nat) (hlt : w < s.kthreads.length) :
    (KState.kthreads { s with kthreads := s.kthreads.set w k1, global_lock := lock1,
                              wstats := .live ws1, shared_counters := .live cs1 })[w]? =
      some k1 := by
  simp [List.getElem?_set_self hlt]

theorem run_cons_ok (p : Params) (s s1 : KState) (e : Event) (es : List Event)
    (h : apply_event p s e = .ok s1) : run p s (e :: es) = run p s1 es := by
  simp [run, h, Outcome.bind]

theorem run_append_ok (p : Params) (a b : List Event) : ∀ s s1, run p s a = .ok s1 →
    run p s (a ++ b) = run p s1 b := by
  induction a with
  | nil => intro s s1 h; cases h; rfl
  | cons e es ih =>
    intro s s1 h
    cases he : apply_event p s e with
    | fault f => simp [run, he, Outcome.bind] at h
    | ok s2 =>
      rw [run_cons_ok p s s2 e es he] at h
      rw [List.cons_append, run_cons_ok p s s2 e _ he]
      exact ih s2 s1 h

/-- The holder of the lock, scheduled alone, releases the lock. -/
theorem release_lock (p : Params) (h : Nat) : ∀ (n : Nat) (s : KState) (k : Worker),
    Running p s → s.kthreads[h]? = some k → k.pc.in_cs = true → cs_steps p k = n →
    ∃ evs s1 k1, (∀ e ∈ evs, ∃ now cpu, e = Event.step h now cpu) ∧ run p s evs = .ok s1 ∧
      Running p s1 ∧ s1.global_lock = none ∧
      (∀ v, v ≠ h → s1.kthreads[v]? = s.kthreads[v]?) ∧
      s1.kthreads[h]? = some k1 ∧ k1.pc.in_cs = false ∧
      k1.should_stop = k.should_stop ∧ k1.sig_pending = k.sig_pending := by
  intro n
  induction n with
  | zero =>
    intro s k _ _ hin hn
    cases hpc : k.pc <;> simp [hpc, PC.in_cs, cs_steps] at hin hn
  | succ n ih =>
    intro s k hR hk hin hn
    obtain ⟨ws, cs, k1, lock1, ws1, cs1, hws, hcs, hstep, hres, hR1⟩ :=
      running_step_full p s h 0 0 k hR hk
    have hlt := getElem?_lt_length _ _ _ hk
    have hk1 := stepped_thread s h k1 lock1 ws1 cs1 hlt
    obtain ⟨-, f1, f2, -, -, -⟩ := hstep.summary
    rcases hstep.cs_progress hin with ⟨c1, c2⟩ | ⟨c1, c2⟩
    · obtain ⟨evs, s2, k2, e1, e2, e3, e4, e5, e6, e7, e8, e9⟩ :=
        ih _ k1 hR1 hk1 c1 (by omega)
      refine ⟨Event.step h 0 0 :: evs, s2, k2, ?_, ?_, e3, e4, ?_, e6, e7, e8.trans f1,
        e9.trans f2⟩
      · intro e he
        rcases List.mem_cons.mp he with rfl | he
        · exact ⟨0, 0, rfl⟩
        · exact e1 e he
      · rw [run_cons_ok p s _ (Event.step _ 0 0) evs hres]; exact e2
      · intro v hv
        rw [e5 v hv]
        exact List.getElem?_set_ne (fun e => hv e.symm)
    · refine ⟨[Event.step h 0 0], _, k1, ?_, ?_, hR1, c2, ?_, hk1, c1, f1, f2⟩
      · intro e he
        rcases List.mem_cons.mp he with rfl | he
        · exact ⟨0, 0, rfl⟩
        · cases he
      · rw [run_cons_ok p s _ (Event.step _ 0 0) [] hres]; rfl
      · intro v hv
        exact List.getElem?_set_ne (fun e => hv e.symm)

/-- A thread scheduled alone while nobody else holds the lock reaches the wait
for its stop request. -/
theorem run_to_wait (p : Params) (w : Nat) : ∀ (n : Nat) (s : KState) (k : Worker),
    Running p s → s.kthreads[w]? = some k → (s.global_lock = none ∨ s.global_lock = some w) →
    steps_left p k = n →
    ∃ evs s1 k1, (∀ e ∈ evs, ∃ now cpu, e = Event.step w now cpu) ∧ run p s evs = .ok s1 ∧
      Running p s1 ∧ s1.global_lock = none ∧
      (∀ v, v ≠ w → s1.kthreads[v]? = s.kthreads[v]?) ∧
      s1.kthreads[w]? = some k1 ∧ (k1.pc = .wait_stop ∨ k1.pc = .exited) ∧
      k1.should_stop = k.should_stop ∧ k1.sig_pending = k.sig_pending := by
  intro n
  induction n with
  | zero =>
    intro s k hR hk hl hn
    have hpc : k.pc = .wait_stop ∨ k.pc = .exited := by
      cases hpc : k.pc <;> simp only [hpc, steps_left, tail_steps, after_steps, loop_len] at hn ⊢
      all_goals first
        | trivial
        | exact Or.inl trivial
        | exact Or.inr trivial
        | (split_ifs at hn <;> omega)
    have hnot : k.pc.in_cs = false := by
      rcases hpc with h | h <;> simp [h, PC.in_cs]
    refine ⟨[], s, k, by simp, rfl, hR, ?_, fun _ _ => rfl, hk, hpc, rfl, rfl⟩
    rcases hl with hl | hl
    · exact hl
    · have := (hR.mutex w k hk).mpr hl
      rw [hnot] at this
      cases this
  | succ n ih =>
    intro s k hR hk hl hn
    obtain ⟨ws, cs, k1, lock1, ws1, cs1, hws, hcs, hstep, hres, hR1⟩ :=
      running_step_full p s w 0 0 k hR hk
    have hlt := getElem?_lt_length _ _ _ hk
    have hk1 := stepped_thread s w k1 lock1 ws1 cs1 hlt
    obtain ⟨-, f1, f2, -, -, f3⟩ := hstep.summary
    have hfree : k.pc = .at_lock → s.global_lock = none := by
      intro hpc
      rcases hl with hl | hl
      · exact hl
      · have := (hR.mutex w k hk).mpr hl
        rw [hpc] at this
        simp [PC.in_cs] at this
    have hdec := hstep.progress hfree (by omega)
    have hl1 : lock1 = none ∨ lock1 = some w := by
      rcases f3 with ⟨-, a⟩ | ⟨-, -, -, a⟩ | ⟨-, -, a⟩
      · rw [a]; exact hl
      · exact Or.inr a
      · exact Or.inl a
    obtain ⟨evs, s2, k2, e1, e2, e3, e4, e5, e6, e7, e8, e9⟩ :=
      ih _ k1 hR1 hk1 hl1 (by omega)
    refine ⟨Event.step w 0 0 :: evs, s2, k2, ?_, ?_, e3, e4, ?_, e6, e7, e8.trans f1,
      e9.trans f2⟩
    · intro e he
      rcases List.mem_cons.mp he with rfl | he
      · exact ⟨0, 0, rfl⟩
      · exact e1 e he
    · rw [run_cons_ok p s _ (Event.step _ 0 0) evs hres]; exact e2
    · intro v hv
      rw [e5 v hv]
      exact List.getElem?_set_ne (fun e => hv e.symm)

theorem lock_free_of_no_cs (p : Params) (s : KState) (hR : Running p s)
    (hno : ∀ (v : Nat) (k : Worker), s.kthreads[v]? = some k → k.pc.in_cs = false) :
    s.global_lock = none := by
  cases hl : s.global_lock with
  | none => rfl
  | some h =>
    have hlt := hR.holder h hl
    have hk := List.getElem?_eq_getElem hlt
    have h1 := (hR.mutex h _ hk).mpr hl
    rw [hno h _ hk] at h1
    cases h1

/-- From a state in which no thread is inside the bracket, scheduling the
threads one after the other brings the first `m` of them to the wait for their
stop request. -/
theorem finish_all (p : Params) : ∀ (m : Nat) (s : KState), Running p s →
    (∀ (v : Nat) (k : Worker), s.kthreads[v]? = some k → k.pc.in_cs = false) →
    ∃ evs s1, (∀ e ∈ evs, ∃ w now cpu, e = Event.step w now cpu) ∧ run p s evs = .ok s1 ∧
      Running p s1 ∧
      (∀ (v : Nat) (k : Worker), s1.kthreads[v]? = some k → k.pc.in_cs = false) ∧
      (∀ (v : Nat) (k : Worker), v < m → s1.kthreads[v]? = some k →
        k.pc = .wait_stop ∨ k.pc = .exited) := by
  intro m
  induction m with
  | zero =>
    intro s hR hno
    exact ⟨[], s, by simp, rfl, hR, hno, fun v k hv => absurd hv (Nat.not_lt_zero v)⟩
  | succ m ih =>
    intro s hR hno
    obtain ⟨evs, s1, a1, a2, a3, a4, a5⟩ := ih s hR hno
    cases hk : s1.kthreads[m]? with
    | none =>
      refine ⟨evs, s1, a1, a2, a3, a4, ?_⟩
      intro v k hv hvk
      rcases Nat.lt_succ_iff_lt_or_eq.mp hv with h | rfl
      · exact a5 v k h hvk
      · rw [hk] at hvk; cases hvk
    | some k =>
      obtain ⟨evs2, s2, k2, b1, b2, b3, b4, b5, b6, b7, -, -⟩ :=
        run_to_wait p m (steps_left p k) s1 k a3 hk (Or.inl (lock_free_of_no_cs p s1 a3 a4)) rfl
      have hk2 : k2.pc.in_cs = false := by
        rcases b7 with h | h <;> simp [h, PC.in_cs]
      refine ⟨evs ++ evs2, s2, ?_, ?_, b3, ?_, ?_⟩
      · intro e he
        rcases List.mem_append.mp he with he | he
        · exact a1 e he
        · obtain ⟨now, cpu, rfl⟩ := b1 e he
          exact ⟨m, now, cpu, rfl⟩
      · rw [run_append_ok p evs evs2 s s1 a2]; exact b2
      · intro v b hb
        by_cases hv : v = m
        · subst hv
          rw [b6] at hb; cases hb; exact hk2
        · rw [b5 v hv] at hb; exact a4 v b hb
      · intro v b hv hb
        by_cases hvm : v = m
        · subst hvm
          rw [b6] at hb; cases hb; exact b7
        · rw [b5 v hvm] at hb
          exact a5 v b (by omega) hb

/-- C4: after a successful startup in which every one of the `threads` workers
was created, with `work_size >= 1` and no signal or stop request: some schedule
lets every worker finish its loop, and under every schedule (every order of the
steps, hence of the critical sections) after which every worker has finished its
loop, each worker's `acquires` equals `iterations`, the sum of `acquires` equals
`threads * iterations`, and each of the `work_size` shared counters equals
`threads * iterations` modulo `2 ^ 64`. -/
theorem full_run_counts (p : Params) (env : Env) (s0 : KState)
    (hW : 1 ≤ p.work_size) (hI : p.iterations < 2 ^ 64)
    (hall : ∀ i, i < p.threads.toNat → env.kthread_run_ok i = true)
    (h0 : tsp_kbench_init p env boot = .ok (0, s0)) :
    (∃ evs s, (∀ e ∈ evs, ∃ w now cpu, e = Event.step w now cpu) ∧ run p s0 evs = .ok s ∧
      ∀ (w : Nat) (k : Worker), s.kthreads[w]? = some k → k.pc = .wait_stop) ∧
    (∀ evs s, (∀ e ∈ evs, ∃ w now cpu, e = Event.step w now cpu) → run p s0 evs = .ok s →
      (∀ (w : Nat) (k : Worker), s.kthreads[w]? = some k → k.pc = .wait_stop) →
      s.kthreads.length = p.threads.toNat ∧
      ∃ ws cs, s.wstats = .live ws ∧ s.shared_counters = .live cs ∧
        ws.length = p.threads.toNat ∧ cs.length = p.work_size.toNat ∧
        (∀ st ∈ ws, st.acquires = p.iterations) ∧
        (ws.map fun st => st.acquires).sum = p.threads.toNat * p.iterations ∧
        (∀ c ∈ cs, c = (p.threads.toNat * p.iterations) % U64_MOD)) := by
  have hR0 := running_after_init p env s0 h0
  have hC0 := counting_after_init p env s0 h0
  obtain ⟨-, ws1, c, hc, e1, e2, e3, e4, e5, -, -, e8, -, -, -, -, e13⟩ := init_success p env s0 h0
  have hcN : c = p.threads.toNat := by
    rcases Nat.lt_or_ge c p.threads.toNat with h | h
    · have := e8 h
      rw [hall c h] at this
      cases this
    · omega
  have hlen0 : s0.kthreads.length = p.threads.toNat := by rw [e4]; simp [hcN]
  constructor
  · have hno : ∀ (v : Nat) (k : Worker), s0.kthreads[v]? = some k → k.pc.in_cs = false := by
      intro v k hk
      rw [e4] at hk
      rw [(kthreads_fresh c v k hk).1]
      rfl
    obtain ⟨evs, s, a1, a2, a3, a4, a5⟩ := finish_all p s0.kthreads.length s0 hR0 hno
    refine ⟨evs, s, a1, a2, ?_⟩
    intro w k hk
    have hC := counting_run p evs a1 s0 s hC0 a2
    have hlt : w < s0.kthreads.length := by
      rw [← (kept_run p evs s0 s hR0 a2).nthreads]; exact getElem?_lt_length _ _ _ hk
    rcases a5 w k hlt hk with h | h
    · exact h
    · have := hC.loc w k hk
      simp [local_ok, h] at this
  · intro evs s hev hrun hdone
    have hC := counting_run p evs hev s0 s hC0 hrun
    have hlen : s.kthreads.length = p.threads.toNat := by
      rw [(kept_run p evs s0 s hR0 hrun).nthreads]; exact hlen0
    exact ⟨hlen, all_done_counts p s hC hW hI hlen hdone⟩

/-- C4, scenario A: with `threads = 4`, `iterations = 100`, `work_size = 8` some
schedule completes, and it leaves 4 records with 100 acquisitions each, 400 in
total, and 8 counters that all hold 400. -/
theorem full_run_counts_witness :
    ∃ evs s ws cs, run ⟨4, 100, 8, false⟩ (started ⟨4, 100, 8, false⟩ env_all_ok) evs = .ok s ∧
      s.wstats = .live ws ∧ s.shared_counters = .live cs ∧ ws.length = 4 ∧ cs.length = 8 ∧
      (∀ st ∈ ws, st.acquires = 100) ∧ (ws.map fun st => st.acquires).sum = 400 ∧
      (∀ c ∈ cs, c = 400) := by
  obtain ⟨⟨evs, s, a1, a2, a3⟩, h⟩ :=
    full_run_counts ⟨4, 100, 8, false⟩ env_all_ok (started ⟨4, 100, 8, false⟩ env_all_ok)
      (by decide) (by decide) (fun _ _ => rfl) rfl
  obtain ⟨-, ws, cs, b1, b2, b3, b4, b5, b6, b7⟩ := h evs s a1 a2 a3
  exact ⟨evs, s, ws, cs, a2, b1, b2, b3, b4, b5, b6, b7⟩

/-! ### Teardown -/

theorem running_with_calls (p : Params) (s : KState) (c : List Call) (hR : Running p s) :
    Running p { s with calls := c } :=
  ⟨hR.ws_live, hR.cs_live, hR.threads_le, hR.created, hR.st_eq, hR.mutex, hR.holder⟩

theorem running_with_wstats (p : Params) (s : KState) (ws : List worker_stats)
    (hR : Running p s) (hlen : ws.length = p.threads.toNat) :
    Running p { s with wstats := .live ws } :=
  ⟨⟨ws, rfl, hlen⟩, hR.cs_live, hR.threads_le, hR.created, hR.st_eq, hR.mutex, hR.holder⟩

theorem Step.exited_stays {p : Params} {w now : Nat} {cpu : Int} {k k1 : Worker}
    {lock lock1 : Option Nat} {ws ws1 : List worker_stats} {cs cs1 : List Nat}
    (h : Step p w now cpu k lock ws cs k1 lock1 ws1 cs1) (he : k.pc = .exited) :
    k1.pc = .exited := by
  cases h <;> simp_all

theorem exited_apply_event (p : Params) (s s1 : KState) (e : Event) (v : Nat) (k : Worker)
    (hR : Running p s) (he : apply_event p s e = .ok s1) (hk : s.kthreads[v]? = some k)
    (hpc : k.pc = .exited) : ∃ k1, s1.kthreads[v]? = some k1 ∧ k1.pc = .exited := by
  have hlt := getElem?_lt_length _ _ _ hk
  cases e with
  | signal w =>
    cases he
    unfold deliver_signal
    cases hw : s.kthreads[w]? with
    | none => exact ⟨k, hk, hpc⟩
    | some a =>
      by_cases hwv : w = v
      · subst hwv
        rw [hk] at hw; cases hw
        exact ⟨_, List.getElem?_set_self hlt, hpc⟩
      · exact ⟨k, by simp only [KState.set_thread]; rw [List.getElem?_set_ne hwv]; exact hk, hpc⟩
  | stop w =>
    cases he
    unfold request_stop
    cases hw : s.kthreads[w]? with
    | none => exact ⟨k, hk, hpc⟩
    | some a =>
      by_cases hwv : w = v
      · subst hwv
        rw [hk] at hw; cases hw
        exact ⟨_, List.getElem?_set_self hlt, hpc⟩
      · exact ⟨k, by simp only [KState.set_thread]; rw [List.getElem?_set_ne hwv]; exact hk, hpc⟩
  | step w now cpu =>
    have he1 : worker_fn p s w now cpu = .ok s1 := he
    cases hw : s.kthreads[w]? with
    | none =>
      rw [worker_step_none p s w now cpu hw] at he1
      cases he1
      exact ⟨k, hk, hpc⟩
    | some a =>
      obtain ⟨ws, cs, k1, lock1, ws1, cs1, -, -, hstep, hres, -⟩ :=
        running_step_full p s w now cpu a hR hw
      rw [hres] at he1
      cases he1
      by_cases hwv : w = v
      · subst hwv
        rw [hk] at hw; cases hw
        exact ⟨k1, List.getElem?_set_self hlt, hstep.exited_stays hpc⟩
      · exact ⟨k, by simp only []; rw [List.getElem?_set_ne hwv]; exact hk, hpc⟩

theorem exited_run (p : Params) (evs : List Event) (v : Nat) : ∀ (s s1 : KState) (k : Worker),
    Running p s → run p s evs = .ok s1 → s.kthreads[v]? = some k → k.pc = .exited →
    ∃ k1, s1.kthreads[v]? = some k1 ∧ k1.pc = .exited := by
  induction evs with
  | nil => intro s s1 k _ h hk hpc; cases h; exact ⟨k, hk, hpc⟩
  | cons e es ih =>
    intro s s1 k hR h hk hpc
    obtain ⟨s2, h2, hR2⟩ := running_apply_event p s e hR
    rw [run_cons_ok p s s2 e es h2] at h
    obtain ⟨k2, hk2, hpc2⟩ := exited_apply_event p s s2 e v k hR h2 hk hpc
    exact ih s2 s1 k2 hR2 h hk2 hpc2

theorem request_stop_thread (s : KState) (t : Nat) (k : Worker) (hk : s.kthreads[t]? = some k) :
    (request_stop s t).kthreads[t]? = some { k with should_stop := true } := by
  have hlt := getElem?_lt_length _ _ _ hk
  simp only [request_stop, hk, KState.set_thread]
  exact List.getElem?_set_self hlt

theorem request_stop_other (s : KState) (t v : Nat) (hv : v ≠ t) :
    (request_stop s t).kthreads[v]? = s.kthreads[v]? := by
  unfold request_stop
  split
  · rfl
  · exact List.getElem?_set_ne (fun e => hv e.symm)

theorem kept_request_stop (s : KState) (t : Nat) : Kept s (request_stop s t) := by
  unfold request_stop
  split
  · exact Kept.refl s
  · exact kept_set_thread s t _

/-- What a returned `kthread_stop` guarantees. -/
theorem kthread_stop_ok (p : Params) (evs : List Event) (s s1 : KState) (t : Nat)
    (hR : Running p s) (h : kthread_stop p evs s t = .ok s1) :
    Running p s1 ∧ s1.calls = s.calls ++ [Call.kthread_stop t] ∧
    s1.created_threads = s.created_threads ∧ s1.kthreads.length = s.kthreads.length ∧
    s1.dbg_dir = s.dbg_dir ∧ s1.dbg_stats_file = s.dbg_stats_file ∧
    (∀ ws ws1, s.wstats = .live ws → s1.wstats = .live ws1 →
      ws1.map (fun st => st.task) = ws.map (fun st => st.task)) ∧
    (∃ k, s1.kthreads[t]? = some k ∧ k.pc = .exited) ∧
    (∀ (v : Nat) (k : Worker), s.kthreads[v]? = some k → k.pc = .exited →
      ∃ k1, s1.kthreads[v]? = some k1 ∧ k1.pc = .exited) ∧
    s1.held = s.held := by
  have hRa : Running p (request_stop { s with calls := s.calls ++ [Call.kthread_stop t] } t) :=
    running_request_stop p _ t (running_with_calls p s _ hR)
  have hKa := kept_request_stop { s with calls := s.calls ++ [Call.kthread_stop t] } t
  unfold kthread_stop at h
  obtain ⟨s2, h2, hR2⟩ := running_run p evs _ hRa
  rw [h2] at h
  simp only [Outcome.bind] at h
  have hK := Kept.trans hRa hKa (kept_run p evs _ s2 hRa h2)
  cases hk : s2.kthreads[t]? with
  | none => rw [hk] at h; cases h
  | some k =>
    rw [hk] at h
    simp only at h
    split at h
    · cases h
      rename_i hpc
      refine ⟨hR2, hK.calls, hK.created, hK.nthreads, hK.dbg_dir, hK.dbg_file, ?_, ⟨k, hk, hpc⟩,
        ?_, hK.held⟩
      · intro ws ws1 hw hw1
        exact (hK.records ws ws1 hw hw1).1
      · intro v b hb hbpc
        have hb0 : (request_stop { s with calls := s.calls ++ [Call.kthread_stop t] }
            t).kthreads[v]? = some (if v = t then { b with should_stop := true } else b) := by
          by_cases hv : v = t
          · subst hv
            simp only [if_true]
            exact request_stop_thread { s with calls := s.calls ++ [Call.kthread_stop v] } v b hb
          · simp only [hv, if_false]
            rw [request_stop_other _ t v hv]
            exact hb
        exact exited_run p evs v _ s1 _ hRa h2 hb0 (by split <;> exact hbpc)
    · cases h

theorem Step.stop_exit {p : Params} {w now : Nat} {cpu : Int} {k k1 : Worker}
    {lock lock1 : Option Nat} {ws ws1 : List worker_stats} {cs cs1 : List Nat}
    (h : Step p w now cpu k lock ws cs k1 lock1 ws1 cs1)
    (hpc : k.pc = .wait_stop ∨ k.pc = .exited) (hs : k.should_stop = true) :
    k1.pc = .exited := by
  cases h <;> simp_all

/-- Every thread can be brought to its exit: once the stop request is posted,
some schedule of the threads makes `kthread_stop` return. -/
theorem kthread_stop_returns (p : Params) (s : KState) (t : Nat) (k : Worker)
    (hR : Running p s) (hk : s.kthreads[t]? = some k) :
    ∃ evs s1, kthread_stop p evs s t = .ok s1 := by
  have hRa : Running p (request_stop { s with calls := s.calls ++ [Call.kthread_stop t] } t) :=
    running_request_stop p _ t (running_with_calls p s _ hR)
  have hka := request_stop_thread { s with calls := s.calls ++ [Call.kthread_stop t] } t k hk
  obtain ⟨sA, hsA⟩ : ∃ sA, sA = request_stop { s with calls := s.calls ++ [Call.kthread_stop t] } t :=
    ⟨_, rfl⟩
  rw [← hsA] at hRa hka
  -- first let the holder of the lock, if it is another thread, release it
  have hB : ∃ evsA sB kB, run p sA evsA = .ok sB ∧ Running p sB ∧
      sB.kthreads[t]? = some kB ∧ kB.should_stop = true ∧
      (sB.global_lock = none ∨ sB.global_lock = some t) := by
    cases hl : sA.global_lock with
    | none => exact ⟨[], sA, { k with should_stop := true }, rfl, hRa, hka, rfl, Or.inl hl⟩
    | some h =>
      by_cases hht : h = t
      · exact ⟨[], sA, { k with should_stop := true }, rfl, hRa, hka, rfl,
          Or.inr (by rw [hl, hht])⟩
      · have hlt := hRa.holder h hl
        have hkh := List.getElem?_eq_getElem hlt
        have hin := (hRa.mutex h _ hkh).mpr hl
        obtain ⟨evsA, sB, -, -, a2, a3, a4, a5, -, -, -, -⟩ :=
          release_lock p h _ sA _ hRa hkh hin rfl
        refine ⟨evsA, sB, { k with should_stop := true }, a2, a3, ?_, rfl, Or.inl a4⟩
        rw [a5 t (fun e => hht e.symm)]
        exact hka
  obtain ⟨evsA, sB, kB, b1, b2, b3, b4, b5⟩ := hB
  obtain ⟨evsB, sC, kC, -, c2, c3, -, -, c6, c7, c8, -⟩ :=
    run_to_wait p t _ sB kB b2 b3 b5 rfl
  obtain ⟨ws, cs, kD, lockD, wsD, csD, -, -, hstep, hres, -⟩ :=
    running_step_full p sC t 0 0 kC c3 c6
  have hD := hstep.stop_exit c7 (c8.trans b4)
  have hltC := getElem?_lt_length _ _ _ c6
  obtain ⟨sD, hsD, hkD⟩ : ∃ sD, worker_fn p sC t 0 0 = .ok sD ∧ sD.kthreads[t]? = some kD :=
    ⟨_, hres, stepped_thread sC t kD lockD wsD csD hltC⟩
  refine ⟨evsA ++ (evsB ++ [Event.step t 0 0]), sD, ?_⟩
  unfold kthread_stop
  rw [← hsA, run_append_ok p evsA _ sA sB b1, run_append_ok p evsB _ sB sC c2,
    run_cons_ok p sC _ (Event.step t 0 0) [] hsD]
  simp only [run, Outcome.bind, hkD, hD, if_true]

theorem task_of_map_eq (ws ws1 : List worker_stats)
    (h : ws1.map (fun st => st.task) = ws.map (fun st => st.task)) (m : Nat) (t : Option Nat)
    (hm : ∃ st, ws[m]? = some st ∧ st.task = t) : ∃ st, ws1[m]? = some st ∧ st.task = t := by
  obtain ⟨st, h1, h2⟩ := hm
  have := congrArg (fun l => l[m]?) h
  simp only [List.getElem?_map, h1, Option.map_some'] at this
  cases h3 : ws1[m]? with
  | none => rw [h3] at this; cases this
  | some st1 =>
    rw [h3] at this
    simp only [Option.map_some', Option.some.injEq] at this
    exact ⟨st1, rfl, this.trans h2⟩

/-- The stop loop, when it returns: it has called `kthread_stop` once for each
index `i .. i + n - 1`, in that order, and each of these threads has exited. -/
theorem stop_loop_ok (p : Params) (drain : Nat → List Event) : ∀ (n i : Nat) (s s1 : KState),
    Running p s →
    (∃ ws, s.wstats = .live ws ∧ ∀ m, i ≤ m → m < i + n → ∃ st, ws[m]? = some st ∧
      st.task = some m) →
    stop_loop p drain s i n = .ok s1 →
    Running p s1 ∧ s1.calls = s.calls ++ (List.range' i n).map Call.kthread_stop ∧
    s1.created_threads = s.created_threads ∧ s1.kthreads.length = s.kthreads.length ∧
    s1.dbg_dir = s.dbg_dir ∧ s1.dbg_stats_file = s.dbg_stats_file ∧
    (∀ v, i ≤ v → v < i + n → ∃ k, s1.kthreads[v]? = some k ∧ k.pc = .exited) ∧
    (∀ (v : Nat) (k : Worker), s.kthreads[v]? = some k → k.pc = .exited →
      ∃ k1, s1.kthreads[v]? = some k1 ∧ k1.pc = .exited) ∧
    s1.held = s.held := by
  intro n
  induction n with
  | zero =>
    intro i s s1 hR _ h
    cases h
    exact ⟨hR, by simp, rfl, rfl, rfl, rfl, fun v h1 h2 => by omega,
      fun v k hk hpc => ⟨k, hk, hpc⟩, rfl⟩
  | succ n ih =>
    intro i s s1 hR hT h
    obtain ⟨ws, hws, htask⟩ := hT
    obtain ⟨st, hst, htk⟩ := htask i le_rfl (by omega)
    simp only [stop_loop, hws, Ptr.deref, Outcome.bind, hst, htk] at h
    cases hks : kthread_stop p (drain i) s i with
    | fault f => rw [hks] at h; cases h
    | ok s2 =>
      rw [hks] at h
      simp only at h
      obtain ⟨a1, a2, a3, a4, a5, a6, a7, a8, a9, a10⟩ := kthread_stop_ok p (drain i) s s2 i hR hks
      obtain ⟨ws2, hws2, hwl2⟩ := a1.ws_live
      rw [hws2] at h
      simp only at h
      have hmap := a7 ws ws2 hws hws2
      obtain ⟨st2, hst2, -⟩ := task_of_map_eq ws ws2 hmap i _ ⟨st, hst, htk⟩
      rw [hst2] at h
      simp only at h
      have hR3 : Running p { s2 with wstats := .live (ws2.set i { st2 with task := none }) } :=
        running_with_wstats p s2 _ a1 (by simp [hwl2])
      have hT3 : ∃ ws3, ({ s2 with wstats := .live (ws2.set i { st2 with task := none }) } :
          KState).wstats = .live ws3 ∧ ∀ m, i + 1 ≤ m → m < i + 1 + n → ∃ st, ws3[m]? = some st ∧
            st.task = some m := by
        refine ⟨_, rfl, ?_⟩
        intro m hm1 hm2
        rw [List.getElem?_set_ne (by omega)]
        exact task_of_map_eq ws ws2 hmap m _ (htask m (by omega) (by omega))
      obtain ⟨b1, b2, b3, b4, b5, b6, b7, b8, b9⟩ := ih (i + 1) _ s1 hR3 hT3 h
      refine ⟨b1, ?_, b3.trans a3, b4.trans a4, b5.trans a5, b6.trans a6, ?_, ?_,
        b9.trans a10⟩
      · rw [b2]
        show s2.calls ++ _ = _
        rw [a2, List.range'_succ]
        simp
      · intro v hv1 hv2
        rcases Nat.eq_or_lt_of_le hv1 with rfl | hlt
        · obtain ⟨k, hk, hpc⟩ := a8
          exact b8 _ k hk hpc
        · exact b7 v hlt (by omega)
      · intro v k hk hpc
        obtain ⟨k2, hk2, hpc2⟩ := a9 v k hk hpc
        exact b8 v k2 hk2 hpc2

/-- Some schedules make the stop loop return. -/
theorem stop_loop_returns (p : Params) : ∀ (n i : Nat) (s : KState),
    Running p s → i + n ≤ s.kthreads.length →
    (∃ ws, s.wstats = .live ws ∧ ∀ m, i ≤ m → m < i + n → ∃ st, ws[m]? = some st ∧
      st.task = some m) →
    ∃ (drain : Nat → List Event) (s1 : KState), ∀ d : Nat → List Event,
      (∀ m, i ≤ m → m < i + n → d m = drain m) →
      stop_loop p d s i n = .ok s1 := by
  intro n
  induction n with
  | zero => intro i s _ _ _; exact ⟨fun _ => [], s, fun _ _ => rfl⟩
  | succ n ih =>
    intro i s hR hlen hT
    obtain ⟨ws, hws, htask⟩ := hT
    obtain ⟨st, hst, htk⟩ := htask i le_rfl (by omega)
    have hlt : i < s.kthreads.length := by omega
    obtain ⟨evs, s2, hks⟩ := kthread_stop_returns p s i _ hR (List.getElem?_eq_getElem hlt)
    obtain ⟨a1, a2, a3, a4, a5, a6, a7, a8, a9, -⟩ := kthread_stop_ok p evs s s2 i hR hks
    obtain ⟨ws2, hws2, hwl2⟩ := a1.ws_live
    have hmap := a7 ws ws2 hws hws2
    obtain ⟨st2, hst2, -⟩ := task_of_map_eq ws ws2 hmap i _ ⟨st, hst, htk⟩
    have hR3 : Running p { s2 with wstats := .live (ws2.set i { st2 with task := none }) } :=
      running_with_wstats p s2 _ a1 (by simp [hwl2])
    have hT3 : ∃ ws3, ({ s2 with wstats := .live (ws2.set i { st2 with task := none }) } :
        KState).wstats = .live ws3 ∧ ∀ m, i + 1 ≤ m → m < i + 1 + n → ∃ st, ws3[m]? = some st ∧
          st.task = some m := by
      refine ⟨_, rfl, ?_⟩
      intro m hm1 hm2
      rw [List.getElem?_set_ne (by omega)]
      exact task_of_map_eq ws ws2 hmap m _ (htask m (by omega) (by omega))
    obtain ⟨drain1, s1, hd1⟩ := ih (i + 1) _ hR3 (by show i + 1 + n ≤ s2.kthreads.length; omega) hT3
    refine ⟨fun m => if m = i then evs else drain1 m, s1, ?_⟩
    intro d hd
    have hdi : d i = evs := by rw [hd i le_rfl (by omega)]; simp
    simp only [stop_loop, hws, Ptr.deref, Outcome.bind, hst, htk, hdi, hks, hws2, hst2]
    apply hd1
    intro m hm1 hm2
    rw [hd m (by omega) (by omega)]
    have : m ≠ i := by omega
    simp [this]

theorem running_with_dbg (p : Params) (s : KState) (h : List Resource) (a b : Bool)
    (hR : Running p s) : Running p { s with held := h, dbg_dir := a, dbg_stats_file := b } :=
  ⟨hR.ws_live, hR.cs_live, hR.threads_le, hR.created, hR.st_eq, hR.mutex, hR.holder⟩

theorem cleanup_all_unfold (p : Params) (drain : Nat → List Event) (s : KState) :
    cleanup_all p drain s =
      (stop_loop p drain
        { s with held := (if s.dbg_dir then debugfs_remove_recursive s.held else s.held),
                 dbg_dir := false, dbg_stats_file := s.dbg_stats_file && !s.dbg_dir }
        0 s.created_threads).bind fun s1 =>
      (kfree_shared_counters s1).bind fun s2 =>
      (kfree_wstats { s2 with shared_counters := .null }).bind fun s3 =>
      .ok { s3 with wstats := .null } := by
  obtain ⟨wsP, csP, d1, d2, ct, gl, kt, cl, hd⟩ := s
  cases d1 <;> simp [cleanup_all]

/-- The two `kfree` statements of `cleanup_all` on live arrays: both blocks
leave `held` and both pointers end up NULL. -/
theorem free_both_arrays (s1 : KState) (ws : List worker_stats) (cs : List Nat)
    (hws : s1.wstats = .live ws) (hcs : s1.shared_counters = .live cs) :
    ((kfree_shared_counters s1).bind fun s2 =>
      (kfree_wstats { s2 with shared_counters := .null }).bind fun s3 =>
      .ok { s3 with wstats := .null }) =
    .ok { s1 with shared_counters := .null, wstats := .null,
                  held := (s1.held.erase .counters_mem).erase .wstats_mem } := by
  simp [kfree_shared_counters, kfree_wstats, kfree, hws, hcs, Outcome.bind]

/-- Teardown from a running module in which every created thread still has its
`task` pointer: whenever `cleanup_all` returns it has stopped exactly the created
threads, in creation order, every thread has exited and nothing is left
allocated; and some schedule of the threads makes it return. -/
theorem cleanup_all_ok (p : Params) (s : KState) (hR : Running p s)
    (hT : ∃ ws, s.wstats = .live ws ∧ ∀ m, m < s.created_threads → ∃ st, ws[m]? = some st ∧
      st.task = some m) :
    (∀ drain s2, cleanup_all p drain s = .ok s2 →
      s2.calls = s.calls ++ (List.range' 0 s.created_threads).map Call.kthread_stop ∧
      s2.wstats = .null ∧ s2.shared_counters = .null ∧ s2.dbg_dir = false ∧
      s2.dbg_stats_file = (s.dbg_stats_file && !s.dbg_dir) ∧
      s2.created_threads = s.created_threads ∧
      (∀ (v : Nat) (k : Worker), s2.kthreads[v]? = some k → k.pc = .exited) ∧
      s2.held = (((if s.dbg_dir then debugfs_remove_recursive s.held else s.held).erase
        .counters_mem).erase .wstats_mem)) ∧
    (∃ drain s2, cleanup_all p drain s = .ok s2) := by
  have hR0 := running_with_dbg p s
    (if s.dbg_dir then debugfs_remove_recursive s.held else s.held)
    false (s.dbg_stats_file && !s.dbg_dir) hR
  have hT0 : ∃ ws, ({ s with
      held := (if s.dbg_dir then debugfs_remove_recursive s.held else s.held),
      dbg_dir := false, dbg_stats_file := s.dbg_stats_file && !s.dbg_dir } :
      KState).wstats = .live ws ∧ ∀ m, 0 ≤ m → m < 0 + s.created_threads →
        ∃ st, ws[m]? = some st ∧ st.task = some m := by
    obtain ⟨ws, h1, h2⟩ := hT
    exact ⟨ws, h1, fun m _ hm => h2 m (by omega)⟩
  constructor
  · intro drain s2 h
    rw [cleanup_all_unfold] at h
    cases hsl : stop_loop p drain
        { s with held := (if s.dbg_dir then debugfs_remove_recursive s.held else s.held),
                 dbg_dir := false, dbg_stats_file := s.dbg_stats_file && !s.dbg_dir }
        0 s.created_threads with
    | fault f => rw [hsl] at h; cases h
    | ok s1 =>
      obtain ⟨a1, a2, a3, a4, a5, a6, a7, -, a9⟩ := stop_loop_ok p drain _ 0 _ s1 hR0 hT0 hsl
      obtain ⟨ws1, hws1, -⟩ := a1.ws_live
      obtain ⟨cs1, hcs1, -⟩ := a1.cs_live
      rw [hsl] at h
      have hf := free_both_arrays s1 ws1 cs1 hws1 hcs1
      simp only [Outcome.bind] at h hf
      rw [hf] at h
      cases h
      refine ⟨a2, rfl, rfl, a5, a6, a3, ?_, ?_⟩
      · intro v k hk
        have hk0 : s1.kthreads[v]? = some k := hk
        have hlt : v < s.created_threads := by
          have := getElem?_lt_length _ _ _ hk0
          rw [hR.created]
          have e : s1.kthreads.length = s.kthreads.length := a4
          omega
        obtain ⟨k1, hk1, hpc⟩ := a7 v (Nat.zero_le v) (by omega)
        have hk2 : s1.kthreads[v]? = some k := hk
        rw [hk1] at hk2
        cases hk2
        exact hpc
      · show (s1.held.erase Resource.counters_mem).erase Resource.wstats_mem = _
        rw [a9]
  · obtain ⟨drain, s1, hd⟩ := stop_loop_returns p s.created_threads 0 _ hR0
      (by show 0 + s.created_threads ≤ s.kthreads.length; rw [hR.created]; omega) hT0
    have hsl := hd drain (fun _ _ _ => rfl)
    obtain ⟨a1, -⟩ := stop_loop_ok p drain _ 0 _ s1 hR0 hT0 hsl
    obtain ⟨ws1, hws1, -⟩ := a1.ws_live
    obtain ⟨cs1, hcs1, -⟩ := a1.cs_live
    refine ⟨drain, { s1 with shared_counters := .null, wstats := .null,
                             held := (s1.held.erase .counters_mem).erase .wstats_mem }, ?_⟩
    rw [cleanup_all_unfold, hsl]
    have hf := free_both_arrays s1 ws1 cs1 hws1 hcs1
    simp only [Outcome.bind] at hf ⊢
    exact hf

/-! ### Partial startup -/

/-- C9: with both arrays allocated, `threads = N` and the creation of worker `k`
(`1 <= k < N`) the first to fail: startup succeeds having attempted the creations
`0 .. k` and no other, the created count is `k`; in every state the module then
reaches, the reporter emits the header and `N` rows, the rows `k .. N - 1`
reporting 0 for `acquires`, `avg_wait`, `max_wait`, `avg_hold` and `max_hold`;
and teardown returns under some schedule and, whenever it returns, has stopped
exactly the workers `0 .. k - 1`, in creation order. -/
theorem partial_startup (p : Params) (env : Env) (k : Nat)
    (hk1 : 1 ≤ k) (hkN : k < p.threads.toNat)
    (ha1 : env.alloc_wstats_ok = true) (ha2 : env.alloc_counters_ok = true)
    (hok : ∀ i, i < k → env.kthread_run_ok i = true) (hfail : env.kthread_run_ok k = false) :
    ∃ s0, tsp_kbench_init p env boot = .ok (0, s0) ∧ s0.created_threads = k ∧
      s0.kthreads.length = k ∧
      s0.calls = (List.range' 0 (k + 1)).map Call.kthread_run ∧
      ∀ evs, ∃ s, run p s0 evs = .ok s ∧
        (∃ rows, stats_show p s = .ok (Line.header :: rows) ∧ rows.length = p.threads.toNat ∧
          ∀ m, k ≤ m → m < p.threads.toNat → ∃ r, rows[m]? = some (Line.row r) ∧
            r.acquires = 0 ∧ r.avg_wait_ns = 0 ∧ r.max_wait_ns = 0 ∧ r.avg_hold_ns = 0 ∧
            r.max_hold_ns = 0) ∧
        (∃ drain s2, cleanup_all p drain s = .ok s2) ∧
        (∀ drain s2, cleanup_all p drain s = .ok s2 →
          s2.calls = (List.range' 0 (k + 1)).map Call.kthread_run ++
            (List.range' 0 k).map Call.kthread_stop ∧
          ∀ (v : Nat) (b : Worker), s2.kthreads[v]? = some b → b.pc = .exited) := by
  have hN : 0 < p.threads := by omega
  obtain ⟨s0, ws0, c, e1, e2, e3, e4, e5, e6, e7, e8, e9, e10, e11, -, -, -, -, -, e17, -, -⟩ :=
    init_outcome p env hN ha1 ha2
  have hck : c = k := by
    rcases Nat.lt_trichotomy c k with h | h | h
    · have := e8 (by omega)
      rw [hok c h] at this
      cases this
    · exact h
    · have := e7 k h
      rw [hfail] at this
      cases this
  subst hck
  have h0 := e17 hk1
  have hR0 := running_after_init p env s0 h0
  refine ⟨s0, h0, e5, by rw [e4]; simp, ?_, ?_⟩
  · rw [e6]
    congr 2
    omega
  intro evs
  obtain ⟨s, hs, hR⟩ := running_run p evs s0 hR0
  have hK := kept_run p evs s0 s hR0 hs
  obtain ⟨ws, hws, hwl⟩ := hR.ws_live
  obtain ⟨k1, k2, k3⟩ := hK.records ws0 ws e1 hws
  have hlen0 : s0.kthreads.length = c := by rw [e4]; simp
  refine ⟨s, hs, ?_, ?_⟩
  · obtain ⟨rows, r1, r2, r3⟩ := stats_show_live p s ws hws (by omega)
    refine ⟨rows, r1, r2, ?_⟩
    intro m hm1 hm2
    obtain ⟨st, r, q1, q2, q3⟩ := r3 m hm2
    have hst0 : ws0[m]? = some st := by rw [← k3 m (by omega)]; exact q1
    have hacq : st.acquires = 0 := by
      rcases Nat.eq_or_lt_of_le hm1 with rfl | hlt
      · rw [e11 hkN] at hst0
        cases hst0
        rfl
      · rw [e9 m hlt hm2] at hst0
        cases hst0
        rfl
    rw [show_row_zero st hacq] at q2
    cases q2
    exact ⟨_, q3, rfl, rfl, rfl, rfl, rfl⟩
  · have hT : ∃ ws, s.wstats = .live ws ∧ ∀ m, m < s.created_threads →
        ∃ st, ws[m]? = some st ∧ st.task = some m := by
      refine ⟨ws, hws, ?_⟩
      intro m hm
      rw [hK.created, e5] at hm
      exact task_of_map_eq ws0 ws k1 m _ ⟨_, e10 m hm, rfl⟩
    obtain ⟨t1, t2⟩ := cleanup_all_ok p s hR hT
    refine ⟨t2, ?_⟩
    intro drain s2 h
    obtain ⟨u1, -, -, -, -, -, u7, -⟩ := t1 drain s2 h
    refine ⟨?_, u7⟩
    rw [u1, hK.calls, hK.created, e5, e6]
    congr 3
    omega

/-- C9, scenario C: `threads = 8` and the creation of the 5th worker (index 4)
fails: 4 workers run, the reporter emits 8 rows, the last 4 of them zero, and
teardown stops the workers 0, 1, 2, 3 in this order. -/
theorem partial_startup_witness :
    ∃ s0, tsp_kbench_init ⟨8, 100, 8, false⟩ (env_fail_at 4) boot = .ok (0, s0) ∧
      s0.created_threads = 4 ∧ s0.kthreads.length = 4 ∧
      s0.calls = (List.range' 0 (4 + 1)).map Call.kthread_run ∧
      ∀ evs, ∃ s, run ⟨8, 100, 8, false⟩ s0 evs = .ok s ∧
        (∃ rows, stats_show ⟨8, 100, 8, false⟩ s = .ok (Line.header :: rows) ∧
          rows.length = (8 : Int).toNat ∧
          ∀ m, 4 ≤ m → m < (8 : Int).toNat → ∃ r, rows[m]? = some (Line.row r) ∧
            r.acquires = 0 ∧ r.avg_wait_ns = 0 ∧ r.max_wait_ns = 0 ∧ r.avg_hold_ns = 0 ∧
            r.max_hold_ns = 0) ∧
        (∃ drain s2, cleanup_all ⟨8, 100, 8, false⟩ drain s = .ok s2) ∧
        (∀ drain s2, cleanup_all ⟨8, 100, 8, false⟩ drain s = .ok s2 →
          s2.calls = (List.range' 0 (4 + 1)).map Call.kthread_run ++
            (List.range' 0 4).map Call.kthread_stop ∧
          ∀ (v : Nat) (b : Worker), s2.kthreads[v]? = some b → b.pc = .exited) :=
  partial_startup ⟨8, 100, 8, false⟩ (env_fail_at 4) 4 (by decide) (by decide) rfl rfl
    (by decide) rfl

/-! ### One critical section -/

theorem bumped_zero (cs0 : List Nat) : bumped cs0 cs0 0 :=
  ⟨rfl, fun jj => by simp⟩

theorem bumped_succ (cs0 cs : List Nat) (j c : Nat) (h : bumped cs0 cs j)
    (hc : cs[j]? = some c) : bumped cs0 (cs.set j ((c + 1) % U64_MOD)) (j + 1) := by
  obtain ⟨h1, h2⟩ := h
  refine ⟨by simp [h1], ?_⟩
  intro jj
  have hj := h2 j
  simp only [lt_irrefl, if_false] at hj
  rcases Nat.lt_trichotomy jj j with hlt | rfl | hgt
  · rw [List.getElem?_set_ne (by omega), h2 jj]
    simp [hlt, Nat.lt_succ_of_lt hlt]
  · rw [List.getElem?_set_self (getElem?_lt_length _ _ _ hc)]
    rw [hc] at hj
    simp [← hj]
  · rw [List.getElem?_set_ne (by omega), h2 jj]
    have a : ¬ jj < j := by omega
    have b : ¬ jj < j + 1 := by omega
    simp [a, b]

theorem Step.section {p : Params} {w now : Nat} {cpu : Int} {k k1 : Worker}
    {lock lock1 : Option Nat} {ws ws1 : List worker_stats} {cs cs1 : List Nat}
    (h : Step p w now cpu k lock ws cs k1 lock1 ws1 cs1) (cs0 : List Nat)
    (hin : in_section p cs0 k cs) :
    (cs_steps p k ≠ 1 → in_section p cs0 k1 cs1 ∧ cs_steps p k1 + 1 = cs_steps p k) ∧
    (cs_steps p k = 1 → k1.pc = .stats ∧ cs1 = cs ∧ bumped cs0 cs p.work_size.toNat) := by
  cases h
  case locked hpc =>
    simp only [in_section, hpc] at hin
    simp [in_section, cs_steps, hpc, hin]
  case cs_begin hpc =>
    simp only [in_section, hpc] at hin
    simp only [in_section, cs_steps, hpc, hin]
    exact ⟨fun _ => ⟨⟨Nat.zero_le _, bumped_zero cs0⟩, by omega⟩, fun h => by omega⟩
  case incr c hpc hj hc =>
    simp only [in_section, hpc] at hin
    simp only [in_section, cs_steps, hpc]
    exact ⟨fun _ => ⟨⟨by omega, bumped_succ cs0 cs k.j c hin.2 hc⟩, by omega⟩, fun h => by omega⟩
  case cs_end hpc hj =>
    simp only [in_section, hpc] at hin
    simp only [in_section, cs_steps, hpc]
    have hjw : k.j = p.work_size.toNat := by omega
    refine ⟨fun _ => ⟨?_, by omega⟩, fun h => by omega⟩
    rw [← hjw]; exact hin.2
  case unlock hpc =>
    simp only [in_section, hpc] at hin
    simp only [cs_steps, hpc]
    exact ⟨fun h => absurd rfl h, fun _ => ⟨trivial, trivial, hin⟩⟩
  all_goals simp_all [in_section]

theorem in_section_in_cs (p : Params) (cs0 cs : List Nat) (k : Worker)
    (h : in_section p cs0 k cs) : k.pc.in_cs = true := by
  unfold in_section at h
  cases hpc : k.pc <;> simp [hpc, PC.in_cs] at h ⊢

theorem in_section_congr (p : Params) (cs0 cs : List Nat) (k k1 : Worker)
    (hpc : k1.pc = k.pc) (hj : k1.j = k.j) (h : in_section p cs0 k cs) :
    in_section p cs0 k1 cs ∧ cs_steps p k1 = cs_steps p k := by
  unfold in_section cs_steps at *
  rw [hpc, hj]
  exact ⟨h, rfl⟩

/-- An event that is not a step of thread `w`, while `w` is inside the bracket,
changes neither the counters nor the program point and the index of `w`. -/
theorem other_event_section (p : Params) (s s1 : KState) (e : Event) (w : Nat) (k : Worker)
    (hR : Running p s) (he : apply_event p s e = .ok s1) (hw : e.by_thread w = false)
    (hk : s.kthreads[w]? = some k) (hin : k.pc.in_cs = true) :
    ∃ k1, s1.kthreads[w]? = some k1 ∧ k1.pc = k.pc ∧ k1.j = k.j ∧
      s1.shared_counters = s.shared_counters := by
  have hlt := getElem?_lt_length _ _ _ hk
  have hcs : s1.shared_counters = s.shared_counters := by
    by_contra hne
    obtain ⟨v, now, cpu, b, rfl, -, -, hl, -⟩ := (running_event_shared p s s1 e hR he).1 hne
    have := (hR.mutex w k hk).mp hin
    rw [hl] at this
    cases this
    simp [Event.by_thread] at hw
  cases e with
  | signal v =>
    cases he
    by_cases hv : v = w
    · subst hv
      refine ⟨{ k with sig_pending := true }, ?_, rfl, rfl, hcs⟩
      simp only [deliver_signal, hk, KState.set_thread]
      exact List.getElem?_set_self hlt
    · refine ⟨k, ?_, rfl, rfl, hcs⟩
      unfold deliver_signal
      split
      · exact hk
      · simp only [KState.set_thread]
        rw [List.getElem?_set_ne hv]; exact hk
  | stop v =>
    cases he
    by_cases hv : v = w
    · subst hv
      exact ⟨{ k with should_stop := true }, request_stop_thread s v k hk, rfl, rfl, hcs⟩
    · exact ⟨k, by rw [request_stop_other s v w (fun e => hv e.symm)]; exact hk, rfl, rfl, hcs⟩
  | step v now cpu =>
    have hv : v ≠ w := by
      intro e; subst e; simp [Event.by_thread] at hw
    have he1 : worker_fn p s v now cpu = .ok s1 := he
    cases hkv : s.kthreads[v]? with
    | none =>
      rw [worker_step_none p s v now cpu hkv] at he1
      cases he1
      exact ⟨k, hk, rfl, rfl, rfl⟩
    | some b =>
      obtain ⟨ws, cs, k1, lock1, ws1, cs1, -, -, -, hres, -⟩ :=
        running_step_full p s v now cpu b hR hkv
      rw [hres] at he1
      cases he1
      refine ⟨k, ?_, rfl, rfl, hcs⟩
      show (s.kthreads.set v k1)[w]? = some k
      rw [List.getElem?_set_ne hv]; exact hk

/-- While thread `w` runs through its critical section, interleaved at will with
the other threads, signals and stop requests, the counters follow `in_section`;
the schedule `pre` stops just before the `spin_unlock` of `w`. -/
theorem section_run (p : Params) (w : Nat) (cs0 : List Nat) : ∀ (pre : List Event) (s : KState)
    (k : Worker) (cs : List Nat), Running p s → s.kthreads[w]? = some k →
    s.shared_counters = .live cs → in_section p cs0 k cs →
    pre.countP (Event.by_thread w) + 1 = cs_steps p k →
    ∃ s1 k1 cs1, run p s pre = .ok s1 ∧ Running p s1 ∧ s1.kthreads[w]? = some k1 ∧
      s1.shared_counters = .live cs1 ∧ in_section p cs0 k1 cs1 ∧ cs_steps p k1 = 1 := by
  intro pre
  induction pre with
  | nil =>
    intro s k cs hR hk hcs hin hc
    exact ⟨s, k, cs, rfl, hR, hk, hcs, hin, by simpa using hc.symm⟩
  | cons e es ih =>
    intro s k cs hR hk hcs hin hc
    cases hw : e.by_thread w with
    | true =>
      obtain ⟨v, now, cpu, rfl⟩ : ∃ v now cpu, e = Event.step v now cpu := by
        cases e <;> simp [Event.by_thread] at hw
        exact ⟨_, _, _, rfl⟩
      have hv : v = w := by simpa [Event.by_thread] using hw
      subst hv
      simp only [List.countP_cons, hw, if_true] at hc
      obtain ⟨ws, cs2, k1, lock1, ws1, cs1, -, hcs2, hstep, hres, hR1⟩ :=
        running_step_full p s v now cpu k hR hk
      rw [hcs] at hcs2
      cases hcs2
      obtain ⟨a1, a2⟩ := (hstep.section cs0 hin).1 (by omega)
      obtain ⟨s2, k2, cs3, b1, b2, b3, b4, b5, b6⟩ :=
        ih _ k1 cs1 hR1 (stepped_thread s v k1 lock1 ws1 cs1 (getElem?_lt_length _ _ _ hk)) rfl a1
          (by omega)
      exact ⟨s2, k2, cs3, by rw [run_cons_ok p s _ (Event.step v now cpu) es hres]; exact b1,
        b2, b3, b4, b5, b6⟩
    | false =>
      simp only [List.countP_cons, hw, Bool.false_eq_true, if_false, Nat.add_zero] at hc
      obtain ⟨s1, h1, hR1⟩ := running_apply_event p s e hR
      obtain ⟨k1, c1, c2, c3, c4⟩ :=
        other_event_section p s s1 e w k hR h1 hw hk (in_section_in_cs p cs0 cs k hin)
      obtain ⟨d1, d2⟩ := in_section_congr p cs0 cs k k1 c2 c3 hin
      obtain ⟨s2, k2, cs3, b1, b2, b3, b4, b5, b6⟩ :=
        ih s1 k1 cs hR1 c1 (c4.trans hcs) d1 (by omega)
      exact ⟨s2, k2, cs3, by rw [run_cons_ok p s s1 e es h1]; exact b1, b2, b3, b4, b5, b6⟩

/-- C7, refuted as stated: with `work_size = 0` one thread runs its single
iteration to the end (one acquisition recorded) and the one allocated counter
still holds 0, whereas with `work_size = 1` the same run leaves 1 in it. -/
theorem zero_work_size_counterexample :
    (∃ s, run ⟨1, 1, 0, false⟩ (started ⟨1, 1, 0, false⟩ env_all_ok)
        (List.replicate 10 (Event.step 0 0 0)) = .ok s ∧
      s.shared_counters = .live [0] ∧ s.kthreads.map (fun k => k.pc) = [PC.wait_stop] ∧
      s.wstats = .live [⟨0, some 0, 1, 0, 0, 0, 0, 0⟩]) ∧
    (∃ s, run ⟨1, 1, 1, false⟩ (started ⟨1, 1, 1, false⟩ env_all_ok)
        (List.replicate 11 (Event.step 0 0 0)) = .ok s ∧
      s.shared_counters = .live [1] ∧ s.kthreads.map (fun k => k.pc) = [PC.wait_stop] ∧
      s.wstats = .live [⟨0, some 0, 1, 0, 0, 0, 0, 0⟩]) :=
  ⟨⟨_, rfl, rfl, rfl, rfl⟩, ⟨_, rfl, rfl, rfl, rfl⟩⟩

/-- C7, amended: the array has `max(1, work_size)` counters, and one critical
section of a thread (from the moment it holds the lock to its `spin_unlock`,
interleaved at will with the other threads) increments exactly the counters of
index below `work_size`, each once modulo `2 ^ 64`, and leaves the others alone;
with `work_size <= 0` it increments none. -/
theorem critical_section_increments (p : Params) (s : KState) (w : Nat) (k : Worker)
    (cs0 : List Nat) (pre : List Event) (now : Nat) (cpu : Int)
    (hR : Running p s) (hk : s.kthreads[w]? = some k) (hpc : k.pc = .locked)
    (hcs : s.shared_counters = .live cs0)
    (hcount : pre.countP (Event.by_thread w) = p.work_size.toNat + 3) :
    cs0.length = (max 1 p.work_size).toNat ∧
    ∃ s1 k1 cs1, run p s (pre ++ [Event.step w now cpu]) = .ok s1 ∧
      s1.kthreads[w]? = some k1 ∧ k1.pc = .stats ∧ s1.global_lock = none ∧
      s1.shared_counters = .live cs1 ∧ cs1.length = cs0.length ∧
      (∀ jj : Nat, cs1[jj]? = if (jj : Int) < p.work_size
        then (cs0[jj]?).map (fun c => (c + 1) % U64_MOD) else cs0[jj]?) ∧
      (p.work_size ≤ 0 → cs1 = cs0) := by
  obtain ⟨csx, hcsx, hlen⟩ := hR.cs_live
  rw [hcs] at hcsx
  cases hcsx
  refine ⟨hlen, ?_⟩
  have hin : in_section p cs0 k cs0 := by simp [in_section, hpc]
  obtain ⟨s1, k1, cs1, a1, a2, a3, a4, a5, a6⟩ :=
    section_run p w cs0 pre s k cs0 hR hk hcs hin (by simp [cs_steps, hpc, hcount])
  obtain ⟨ws, cs2, k2, lock2, ws2, cs3, -, hcs2, hstep, hres, hR2⟩ :=
    running_step_full p s1 w now cpu k1 a2 a3
  rw [a4] at hcs2
  cases hcs2
  obtain ⟨b1, b2, b3⟩ := (hstep.section cs0 a5).2 a6
  subst b2
  have hlock : lock2 = none := by
    obtain ⟨-, -, -, -, -, e⟩ := hstep.summary
    have hin1 := in_section_in_cs p cs0 cs3 k1 a5
    rcases e with ⟨e1, -⟩ | ⟨e1, -, -, -⟩ | ⟨-, -, e3⟩
    · rw [b1, hin1] at e1; simp [PC.in_cs] at e1
    · rw [hin1] at e1; cases e1
    · exact e3
  have hall : ∀ jj : Nat, cs3[jj]? = if (jj : Int) < p.work_size
      then (cs0[jj]?).map (fun c => (c + 1) % U64_MOD) else cs0[jj]? := by
    intro jj
    rw [b3.2 jj]
    by_cases hj : (jj : Int) < p.work_size
    · have : jj < p.work_size.toNat := by omega
      simp [hj, this]
    · have : ¬ jj < p.work_size.toNat := by omega
      simp [hj, this]
  refine ⟨_, k2, cs3, ?_, stepped_thread s1 w k2 lock2 ws2 cs3 (getElem?_lt_length _ _ _ a3), b1,
    hlock, rfl, b3.1, hall, ?_⟩
  · rw [run_append_ok p pre _ s s1 a1, run_cons_ok p s1 _ (Event.step w now cpu) [] hres]
    rfl
  · intro hw0
    apply List.ext_getElem?
    intro jj
    rw [hall jj]
    have : ¬ (jj : Int) < p.work_size := by omega
    simp [this]

/-- C7, amended, with `work_size = 0`: the critical section of the only thread
leaves the single counter at 0. -/
theorem critical_section_increments_witness :
    [0].length = (max 1 (0 : Int)).toNat ∧
    ∃ s1 k1 cs1, run ⟨1, 1, 0, false⟩
        (after ⟨1, 1, 0, false⟩ (started ⟨1, 1, 0, false⟩ env_all_ok)
          (List.replicate 3 (Event.step 0 0 0)))
        (List.replicate 3 (Event.step 0 0 0) ++ [Event.step 0 7 0]) = .ok s1 ∧
      s1.kthreads[0]? = some k1 ∧ k1.pc = .stats ∧ s1.global_lock = none ∧
      s1.shared_counters = .live cs1 ∧ cs1.length = [0].length ∧
      (∀ jj : Nat, cs1[jj]? = if (jj : Int) < 0
        then (([0] : List Nat)[jj]?).map (fun c => (c + 1) % U64_MOD) else ([0] : List Nat)[jj]?) ∧
      ((0 : Int) ≤ 0 → cs1 = [0]) := by
  obtain ⟨s, hs, hR⟩ := running_run ⟨1, 1, 0, false⟩ (List.replicate 3 (Event.step 0 0 0))
    (started ⟨1, 1, 0, false⟩ env_all_ok)
    (running_after_init ⟨1, 1, 0, false⟩ env_all_ok _ rfl)
  have he : after ⟨1, 1, 0, false⟩ (started ⟨1, 1, 0, false⟩ env_all_ok)
      (List.replicate 3 (Event.step 0 0 0)) = s := by
    simp only [after, hs]
  rw [he]
  have hs2 : s = after ⟨1, 1, 0, false⟩ (started ⟨1, 1, 0, false⟩ env_all_ok)
      (List.replicate 3 (Event.step 0 0 0)) := he.symm
  exact critical_section_increments ⟨1, 1, 0, false⟩ s 0
    { fresh_worker 0 with pc := .locked } [0] (List.replicate 3 (Event.step 0 0 0)) 7 0 hR
    (by rw [hs2]; rfl) rfl (by rw [hs2]; rfl) (by decide)

/-! ### Repeated teardown -/

/-- After a teardown that returned, with at least one thread created, a second
`cleanup_all` faults: `created_threads` still holds the old count while `wstats`
is NULL, so the stop loop reads `wstats[0].task` through the NULL pointer. -/
theorem second_cleanup_faults (p : Params) (s s2 : KState) (drain d2 : Nat → List Event)
    (hR : Running p s)
    (hT : ∃ ws, s.wstats = .live ws ∧ ∀ m, m < s.created_threads → ∃ st, ws[m]? = some st ∧
      st.task = some m)
    (hc : 1 ≤ s.created_threads) (h : cleanup_all p drain s = .ok s2) :
    cleanup_all p d2 s2 = .fault .null_deref := by
  obtain ⟨-, a2, -, -, -, a6, -⟩ := (cleanup_all_ok p s hR hT).1 drain s2 h
  obtain ⟨n, hn⟩ : ∃ n, s2.created_threads = n + 1 := ⟨s.created_threads - 1, by omega⟩
  rw [cleanup_all_unfold, hn]
  simp [stop_loop, a2, Ptr.deref, Outcome.bind]

/-- C6, refuted as stated, at two states reached after startup.  After a
successful startup with one thread the first `cleanup_all` returns, leaving
`wstats = NULL` and `created_threads = 1`, and a second `cleanup_all` reads
`wstats[0].task` through the NULL pointer.  After a startup that failed on the
second `kcalloc`, `created_threads` is 0 and `wstats` still holds the address
of the block given back on line 201, and `cleanup_all` frees it again. -/
theorem repeated_cleanup_counterexample :
    (∃ s1, cleanup_all ⟨1, 1, 1, false⟩ (fun _ => List.replicate 3 (Event.step 0 0 0))
        (started ⟨1, 1, 1, false⟩ env_all_ok) = .ok s1 ∧
      s1.wstats = .null ∧ s1.created_threads = 1 ∧
      cleanup_all ⟨1, 1, 1, false⟩ (fun _ => []) s1 = .fault .null_deref) ∧
    (∃ s, tsp_kbench_init ⟨1, 1, 1, false⟩ { env_all_ok with alloc_counters_ok := false } boot =
        .ok (-ENOMEM, s) ∧
      s.created_threads = 0 ∧ s.wstats = .freed ∧
      cleanup_all ⟨1, 1, 1, false⟩ (fun _ => []) s = .fault .double_free) :=
  ⟨⟨_, rfl, rfl, rfl, rfl⟩, ⟨_, rfl, rfl, rfl, rfl⟩⟩

/-- C6, amended: on every state with `created_threads = 0` whose two array
pointers are NULL or point to a live block (such is the state in which
`tsp_kbench_init` itself calls `cleanup_all`, line 245), two invocations of
`cleanup_all` in succession produce no fault, the second leaves the state
exactly as the first left it, and neither stops a thread: both arrays end up
NULL, the debugfs directory removed, the thread API not called. -/
theorem cleanup_twice_without_threads (p : Params) (d1 d2 : Nat → List Event) (s : KState)
    (hc : s.created_threads = 0) (hw : s.wstats ≠ .freed) (hs : s.shared_counters ≠ .freed) :
    ∃ s1, cleanup_all p d1 s = .ok s1 ∧ cleanup_all p d2 s1 = .ok s1 ∧
      s1.wstats = .null ∧ s1.shared_counters = .null ∧ s1.dbg_dir = false ∧
      s1.created_threads = 0 ∧ s1.calls = s.calls ∧ s1.kthreads = s.kthreads := by
  obtain ⟨wsP, csP, dd, df, ct, gl, kt, cl, hd⟩ := s
  simp only at hc hw hs
  subst hc
  cases wsP <;> cases csP <;> cases dd <;>
    simp_all [cleanup_all, stop_loop, kfree, kfree_shared_counters, kfree_wstats, Outcome.bind]

/-- C6, amended, at the state in which `tsp_kbench_init` calls `cleanup_all`:
`threads = 2` and the creation of the first worker refused.  The teardown of
line 245 leaves the state with which startup returns `-ENOMEM`, and one more
teardown leaves that state as it is. -/
theorem cleanup_twice_without_threads_witness :
    tsp_kbench_init ⟨2, 1, 1, false⟩ (env_fail_at 0) boot =
      .ok (-ENOMEM, started ⟨2, 1, 1, false⟩ (env_fail_at 0)) ∧
    cleanup_all ⟨2, 1, 1, false⟩ (fun _ => [])
        (at_thread_check ⟨2, 1, 1, false⟩ (env_fail_at 0)) =
      .ok (started ⟨2, 1, 1, false⟩ (env_fail_at 0)) ∧
    cleanup_all ⟨2, 1, 1, false⟩ (fun _ => []) (started ⟨2, 1, 1, false⟩ (env_fail_at 0)) =
      .ok (started ⟨2, 1, 1, false⟩ (env_fail_at 0)) ∧
    (started ⟨2, 1, 1, false⟩ (env_fail_at 0)).wstats = .null ∧
    (started ⟨2, 1, 1, false⟩ (env_fail_at 0)).shared_counters = .null ∧
    (started ⟨2, 1, 1, false⟩ (env_fail_at 0)).dbg_dir = false ∧
    (started ⟨2, 1, 1, false⟩ (env_fail_at 0)).calls = [Call.kthread_run 0] := by
  obtain ⟨s1, h1, h2, h3, h4, h5, -, h7, -⟩ :=
    cleanup_twice_without_threads ⟨2, 1, 1, false⟩ (fun _ => []) (fun _ => [])
      (at_thread_check ⟨2, 1, 1, false⟩ (env_fail_at 0)) rfl (by decide) (by decide)
  have e : cleanup_all ⟨2, 1, 1, false⟩ (fun _ => [])
      (at_thread_check ⟨2, 1, 1, false⟩ (env_fail_at 0)) =
      .ok (started ⟨2, 1, 1, false⟩ (env_fail_at 0)) := rfl
  rw [e] at h1
  cases h1
  exact ⟨rfl, e, h2, h3, h4, h5, h7⟩

/-! ### Records behind a failed creation -/

/-- C10, the defect: with `threads = 3` and the creation of worker 1 failing,
startup succeeds with one thread; the record of index 2, never reached by the
creation loop, keeps `id = 0` and `last_cpu = 0`, and the reporter prints the
row `0,0,0,0,0,0,0` for it. -/
theorem unattempted_record_not_initialised :
    tsp_kbench_init ⟨3, 1, 1, false⟩ (env_fail_at 1) boot =
      .ok (0, started ⟨3, 1, 1, false⟩ (env_fail_at 1)) ∧
    (started ⟨3, 1, 1, false⟩ (env_fail_at 1)).wstats =
      .live [⟨0, some 0, 0, 0, 0, 0, 0, -1⟩, ⟨1, none, 0, 0, 0, 0, 0, -1⟩,
             ⟨0, none, 0, 0, 0, 0, 0, 0⟩] ∧
    stats_show ⟨3, 1, 1, false⟩ (started ⟨3, 1, 1, false⟩ (env_fail_at 1)) =
      .ok [Line.header, Line.row ⟨0, -1, 0, 0, 0, 0, 0⟩, Line.row ⟨1, -1, 0, 0, 0, 0, 0⟩,
           Line.row ⟨0, 0, 0, 0, 0, 0, 0⟩] :=
  ⟨rfl, rfl, rfl⟩

/-! ### The stats step -/

/-- The step of thread `w` at the stats update writes `stats_update` of its own
record, with the two samples the thread measured in this iteration, and
nothing else into `wstats`. -/
theorem stats_step_applies_update (p : Params) (s : KState) (w now : Nat) (cpu : Int)
    (k : Worker) (ws : List worker_stats) (st : worker_stats)
    (hR : Running p s) (hk : s.kthreads[w]? = some k) (hpc : k.pc = .stats)
    (hws : s.wstats = .live ws) (hst : ws[w]? = some st) :
    ∃ s1, worker_fn p s w now cpu = .ok s1 ∧
      s1.wstats = .live (ws.set w (stats_update st k.wait_ns k.hold_ns cpu)) := by
  have hkst := hR.st_eq w k hk
  have hd : s.wstats.deref = .ok ws := by rw [hws]; rfl
  have hstep : worker_fn p s w now cpu =
      .ok { s.set_thread w { k with pc := .after_stats } with
            wstats := .live (ws.set w (stats_update st k.wait_ns k.hold_ns cpu)) } := by
    simp only [worker_fn, hk, hpc, hd, Outcome.bind, hkst, hst]
  exact ⟨_, hstep, rfl⟩

/-! ### Totals under the clock contract -/

end TspKbench
